import Mathlib

/-!
# Verification of the sim-logger concurrent core

Shallow embedding of the `sim_logger` C++ library (logger hierarchy,
logger registry, bounded ring-buffer queue, asynchronous delivery
pipeline) together with proofs settling the frozen claims about it.

Sources embedded:
* `src/logger_core/include/logger/level.hpp` — severity levels,
* `src/logger_core/include/logger/detail/mutex_ring_buffer_queue.hpp` —
  the bounded queue backend,
* `src/logger_core/src/logger.cpp` — logger overrides, effective-value
  resolution and `Logger::log`,
* `src/logger_core/src/logger_registry.cpp` — name-keyed registry,
* `src/logger_core/src/async_sink.cpp` — async pipeline (constructor
  normalisation, producer `write`, `flush` barrier, worker loop).

Machine integers (`std::size_t`, `std::uint64_t`) are modelled as `Nat`:
all arithmetic in the embedded code is bounded increments and modular
index arithmetic that never approaches the 2^64 wrap, and counter wraps
are not the subject of any claim.  Record fields that no claim's control
flow inspects (timestamps which are C++ doubles, thread id, source
location, tags) are carried opaquely by a single `message` payload plus
the fields the claims do inspect (`level`, `loggerName`).
-/

namespace SimLogger

/-- Severity levels, `level.hpp` lines 20–26: `Debug=0, Info=1, Warn=2,
Error=3, Fatal=4` as a `uint8_t` scoped enum. -/
inductive Level : Type where
  | Debug : Level
  | Info : Level
  | Warn : Level
  | Error : Level
  | Fatal : Level
deriving DecidableEq, Repr

/-- Underlying numeric value of the `Level` enum (`uint8_t` values 0–4). -/
def Level.toNat : Level → Nat
  | .Debug => 0
  | .Info => 1
  | .Warn => 2
  | .Error => 3
  | .Fatal => 4

/-- Built-in `<` on the scoped enum compares underlying values
(`record.level() < effective_level()` in `logger.cpp` line 79). -/
def Level.ltb (a b : Level) : Bool :=
  a.toNat < b.toNat

/-- A log record.  `log_record.hpp` carries severity, simulation time,
mission-elapsed time, wall nanoseconds, thread id, source location,
logger name, tags and message; the record is immutable after
construction.  Only `level` and `loggerName` steer any embedded control
flow; the remaining fields are inert payload summarised by `message`. -/
structure LogRecord where
  level : Level
  loggerName : String
  message : String
deriving DecidableEq, Repr

/-- Overflow behaviour of the bounded queue, `async_sink.hpp` lines 19–34. -/
inductive OverflowPolicy : Type where
  | Block : OverflowPolicy
  | DropNewest : OverflowPolicy
  | DropOldest : OverflowPolicy
deriving DecidableEq, Repr

/-- Result of an enqueue attempt, `async_queue.hpp` lines 15–18. -/
structure EnqueueResult where
  enqueued : Bool
  dropped : Nat
deriving DecidableEq, Repr

/-- State of `MutexRingBufferQueue` (`mutex_ring_buffer_queue.hpp` lines
42–59): fixed-capacity circular buffer of optional slots, head/tail/count
triple, stop and flush-kick flags.  The mutex and condition variables are
represented by the atomicity of each operation below. -/
structure MutexRingBufferQueue where
  capacity : Nat
  policy : OverflowPolicy
  buffer : List (Option LogRecord)
  head : Nat
  tail : Nat
  count : Nat
  stopRequested : Bool
  flushKick : Bool
deriving DecidableEq, Repr

namespace MutexRingBufferQueue

/-- Constructor, `mutex_ring_buffer_queue.hpp` lines 61–67: builds the
buffer at the requested capacity, then clamps a zero capacity to 1 and
resizes the buffer accordingly. -/
def mkQueue (capacity : Nat) (policy : OverflowPolicy) : MutexRingBufferQueue :=
  let cap := if capacity = 0 then 1 else capacity
  { capacity := cap
    policy := policy
    buffer := List.replicate cap none
    head := 0
    tail := 0
    count := 0
    stopRequested := false
    flushKick := false }

/-- `push_unlocked_`, lines 144–148: store at `tail`, advance `tail`
modulo capacity, increment `count`. -/
def pushUnlocked (q : MutexRingBufferQueue) (r : LogRecord) : MutexRingBufferQueue :=
  { q with
    buffer := q.buffer.set q.tail (some r)
    tail := (q.tail + 1) % q.capacity
    count := q.count + 1 }

/-- `pop_oldest_unlocked_`, lines 150–154: clear the slot at `head`,
advance `head` modulo capacity, decrement `count`. -/
def popOldestUnlocked (q : MutexRingBufferQueue) : MutexRingBufferQueue :=
  { q with
    buffer := q.buffer.set q.head none
    head := (q.head + 1) % q.capacity
    count := q.count - 1 }

/-- `enqueue`, lines 69–95.  Returns `none` when the `Block` policy
would leave the caller waiting on `cv_not_full_` (queue at capacity, no
stop): in that case the call does not complete and mutates nothing.
Otherwise returns the post-state and the `EnqueueResult`:
stop ⇒ `{false, 0}` untouched; `Block` with a free slot ⇒ push;
full `DropNewest` ⇒ `{false, 1}` untouched; full `DropOldest` ⇒ evict
oldest then push, `{true, 1}`; otherwise push with `{true, 0}`. -/
def enqueue (q : MutexRingBufferQueue) (r : LogRecord) :
    Option (MutexRingBufferQueue × EnqueueResult) :=
  if q.stopRequested then
    some (q, { enqueued := false, dropped := 0 })
  else if q.policy = OverflowPolicy.Block then
    if q.count < q.capacity then
      some (pushUnlocked q r, { enqueued := true, dropped := 0 })
    else
      none
  else if q.capacity ≤ q.count then
    if q.policy = OverflowPolicy.DropNewest then
      some (q, { enqueued := false, dropped := 1 })
    else
      some (pushUnlocked (popOldestUnlocked q) r, { enqueued := true, dropped := 1 })
  else
    some (pushUnlocked q r, { enqueued := true, dropped := 0 })

/-- One iteration of the loop body of `dequeue_batch`, lines 100–106:
move the record out of the `head` slot, reset it, advance `head`,
decrement `count`.  The extracted value is appended to `out` (an
engaged slot contributes its record; a disengaged slot, which the C++
loop never encounters on a well-formed queue, contributes nothing). -/
def dequeueSteps : Nat → MutexRingBufferQueue → List LogRecord →
    MutexRingBufferQueue × List LogRecord
  | 0, q, out => (q, out)
  | Nat.succ n, q, out =>
      dequeueSteps n (popOldestUnlocked q) (out ++ (q.buffer.getD q.head none).toList)

/-- `dequeue_batch`, lines 97–111: removes `n = min count max` records
from the head in FIFO order and returns them (the `cv_not_full_`
notification has no state effect in the model). -/
def dequeueBatch (q : MutexRingBufferQueue) (max : Nat) :
    MutexRingBufferQueue × List LogRecord :=
  dequeueSteps (min q.count max) q []

/-- `request_stop`, lines 118–125: sets the stop flag (the notifications
have no state effect). -/
def requestStop (q : MutexRingBufferQueue) : MutexRingBufferQueue :=
  { q with stopRequested := true }

/-- `kick_for_flush`, lines 136–142: sets the flush-kick flag and wakes
the consumer. -/
def kickForFlush (q : MutexRingBufferQueue) : MutexRingBufferQueue :=
  { q with flushKick := true }

/-- Slot `i` lies in the occupied window `[head, head + count)` taken
modulo the capacity. -/
def occupiedB (q : MutexRingBufferQueue) (i : Nat) : Bool :=
  (List.range q.count).any (fun j => (q.head + j) % q.capacity == i)

/-- Well-formedness of the queue state: positive capacity, buffer sized
to capacity, `count ≤ capacity`, `head` in range, `tail` determined by
`head + count`, and exactly the `count` window slots are engaged. -/
def wf (q : MutexRingBufferQueue) : Prop :=
  0 < q.capacity ∧
  q.buffer.length = q.capacity ∧
  q.count ≤ q.capacity ∧
  q.head < q.capacity ∧
  q.tail = (q.head + q.count) % q.capacity ∧
  ∀ i, i < q.capacity → (q.buffer.getD i none).isSome = q.occupiedB i

instance (q : MutexRingBufferQueue) : Decidable q.wf := by
  unfold wf
  infer_instance

/-- The queued records in FIFO order (head first), reading the window
slots; disengaged slots (absent on well-formed states) are skipped. -/
def contentsFIFO (q : MutexRingBufferQueue) : List LogRecord :=
  (List.range q.count).filterMap (fun j => q.buffer.getD ((q.head + j) % q.capacity) none)

/-- States reachable from a freshly constructed queue by the queue's
public operations (a blocked `Block`-policy enqueue completes no
transition). -/
inductive Reach : MutexRingBufferQueue → Prop where
  | init (capacity : Nat) (policy : OverflowPolicy) : Reach (mkQueue capacity policy)
  | enq (q q' : MutexRingBufferQueue) (r : LogRecord) (res : EnqueueResult) :
      Reach q → enqueue q r = some (q', res) → Reach q'
  | deq (q : MutexRingBufferQueue) (max : Nat) :
      Reach q → Reach (dequeueBatch q max).1
  | stop (q : MutexRingBufferQueue) : Reach q → Reach (requestStop q)
  | kick (q : MutexRingBufferQueue) : Reach q → Reach (kickForFlush q)

/-- Cancellation of a common addend under a common modulus, for window
indices strictly below the capacity. -/
lemma mod_add_cancel (cap : Nat) {a j k : Nat} (hj : j < cap) (hk : k < cap)
    (h : (a + j) % cap = (a + k) % cap) : j = k := by
  have hm : j ≡ k [MOD cap] := Nat.ModEq.add_left_cancel' a h
  rwa [Nat.ModEq, Nat.mod_eq_of_lt hj, Nat.mod_eq_of_lt hk] at hm

lemma getD_set_self {α : Type} (l : List α) (i : Nat) (a d : α) (h : i < l.length) :
    (l.set i a).getD i d = a := by
  rw [List.getD_eq_getElem?_getD, List.getElem?_set_self h]
  rfl

lemma getD_set_ne {α : Type} (l : List α) (i j : Nat) (a d : α) (h : i ≠ j) :
    (l.set i a).getD j d = l.getD j d := by
  rw [List.getD_eq_getElem?_getD, List.getElem?_set_ne h, ← List.getD_eq_getElem?_getD]

lemma getD_replicate {α : Type} (n i : Nat) (a : α) :
    (List.replicate n a).getD i a = a := by
  rw [List.getD_eq_getElem?_getD, List.getElem?_replicate]
  split <;> rfl

lemma occupiedB_iff (q : MutexRingBufferQueue) (i : Nat) :
    q.occupiedB i = true ↔ ∃ j, j < q.count ∧ (q.head + j) % q.capacity = i := by
  unfold occupiedB
  rw [List.any_eq_true]
  constructor
  · rintro ⟨j, hj, hbeq⟩
    exact ⟨j, List.mem_range.mp hj, by simpa using hbeq⟩
  · rintro ⟨j, hj, he⟩
    exact ⟨j, List.mem_range.mpr hj, by simpa using he⟩

lemma wf_mkQueue (c : Nat) (p : OverflowPolicy) : (mkQueue c p).wf := by
  have hcap : (0 : Nat) < (if c = 0 then 1 else c) := by split <;> omega
  refine ⟨by simpa [mkQueue] using hcap, by simp [mkQueue], by simp [mkQueue],
    by simpa [mkQueue] using hcap, by simp [mkQueue], ?_⟩
  intro i hi
  simp [mkQueue, occupiedB, getD_replicate]

lemma wf_requestStop {q : MutexRingBufferQueue} (hwf : q.wf) : (requestStop q).wf := by
  obtain ⟨hcap, hlen, hcnt, hhead, htail, hocc⟩ := hwf
  exact ⟨hcap, hlen, hcnt, hhead, htail, hocc⟩

lemma wf_kickForFlush {q : MutexRingBufferQueue} (hwf : q.wf) : (kickForFlush q).wf := by
  obtain ⟨hcap, hlen, hcnt, hhead, htail, hocc⟩ := hwf
  exact ⟨hcap, hlen, hcnt, hhead, htail, hocc⟩

lemma tail_lt_capacity {q : MutexRingBufferQueue} (hwf : q.wf) : q.tail < q.capacity := by
  obtain ⟨hcap, _, _, _, htail, _⟩ := hwf
  rw [htail]
  exact Nat.mod_lt _ hcap

lemma wf_pushUnlocked {q : MutexRingBufferQueue} (r : LogRecord)
    (hwf : q.wf) (hlt : q.count < q.capacity) : (pushUnlocked q r).wf := by
  have htl : q.tail < q.capacity := tail_lt_capacity hwf
  obtain ⟨hcap, hlen, hcnt, hhead, htail, hocc⟩ := hwf
  refine ⟨hcap, by simpa [pushUnlocked] using hlen, by simpa [pushUnlocked] using hlt,
    by simpa [pushUnlocked] using hhead, ?_, ?_⟩
  · simp only [pushUnlocked]
    rw [htail, Nat.mod_add_mod]
    congr 1
  · intro i hi
    simp only [pushUnlocked] at hi
    by_cases hit : i = q.tail
    · subst hit
      have h1 : ((pushUnlocked q r).buffer.getD q.tail none) = some r := by
        simp only [pushUnlocked]
        exact getD_set_self _ _ _ _ (by rwa [hlen])
      have h2 : (pushUnlocked q r).occupiedB q.tail = true := by
        rw [occupiedB_iff]
        refine ⟨q.count, by simp [pushUnlocked], ?_⟩
        simp only [pushUnlocked]
        exact htail.symm
      rw [h1, h2]
      rfl
    · have h1 : ((pushUnlocked q r).buffer.getD i none) = q.buffer.getD i none := by
        simp only [pushUnlocked]
        exact getD_set_ne _ _ _ _ _ (fun (h : q.tail = i) => hit h.symm)
      have h2 : (pushUnlocked q r).occupiedB i = q.occupiedB i := by
        unfold occupiedB
        simp only [pushUnlocked]
        rw [List.range_succ, List.any_append]
        have hz : ((q.head + q.count) % q.capacity == i) = false := by
          rw [beq_eq_false_iff_ne]
          rw [← htail]
          exact fun h => hit h.symm
        simp [hz]
      rw [h1, h2]
      exact hocc i hi

lemma wf_popOldest {q : MutexRingBufferQueue}
    (hwf : q.wf) (hpos : 0 < q.count) : (popOldestUnlocked q).wf := by
  obtain ⟨hcap, hlen, hcnt, hhead, htail, hocc⟩ := hwf
  refine ⟨hcap, by simpa [popOldestUnlocked] using hlen, ?_, ?_, ?_, ?_⟩
  · simp only [popOldestUnlocked]
    omega
  · simp only [popOldestUnlocked]
    exact Nat.mod_lt _ hcap
  · simp only [popOldestUnlocked]
    rw [Nat.mod_add_mod, htail]
    congr 1
    omega
  · intro i hi
    simp only [popOldestUnlocked] at hi
    by_cases hih : i = q.head
    · subst hih
      have h1 : ((popOldestUnlocked q).buffer.getD q.head none) = none := by
        simp only [popOldestUnlocked]
        exact getD_set_self _ _ _ _ (by rwa [hlen])
      have h2 : (popOldestUnlocked q).occupiedB q.head = false := by
        cases hb : (popOldestUnlocked q).occupiedB q.head with
        | false => rfl
        | true =>
          exfalso
          obtain ⟨j, hj, hje⟩ := (occupiedB_iff _ _).mp hb
          simp only [popOldestUnlocked] at hj hje
          rw [Nat.mod_add_mod] at hje
          have e1 : (q.head + 0) % q.capacity = q.head := by
            rw [Nat.add_zero, Nat.mod_eq_of_lt hhead]
          have e2 : (q.head + (1 + j)) % q.capacity = (q.head + 1 + j) % q.capacity := by
            congr 1
            omega
          have hje2 : (q.head + (1 + j)) % q.capacity = (q.head + 0) % q.capacity := by
            rw [e1, e2, hje]
          have := mod_add_cancel q.capacity (by omega) (by omega) hje2
          omega
      rw [h1, h2]
      rfl
    · have h1 : ((popOldestUnlocked q).buffer.getD i none) = q.buffer.getD i none := by
        simp only [popOldestUnlocked]
        exact getD_set_ne _ _ _ _ _ (fun (h : q.head = i) => hih h.symm)
      have h2 : (popOldestUnlocked q).occupiedB i = q.occupiedB i := by
        rw [Bool.eq_iff_iff, occupiedB_iff, occupiedB_iff]
        constructor
        · rintro ⟨j, hj, hje⟩
          simp only [popOldestUnlocked] at hj hje
          rw [Nat.mod_add_mod] at hje
          refine ⟨1 + j, by omega, ?_⟩
          rw [← hje]
          congr 1
          omega
        · rintro ⟨j, hj, hje⟩
          have hj0 : j ≠ 0 := by
            intro h0
            subst h0
            apply hih
            rw [← hje, Nat.add_zero, Nat.mod_eq_of_lt hhead]
          refine ⟨j - 1, by simp only [popOldestUnlocked]; omega, ?_⟩
          simp only [popOldestUnlocked]
          rw [Nat.mod_add_mod, ← hje]
          congr 1
          omega
      rw [h1, h2]
      exact hocc i hi

lemma head_slot_isSome {q : MutexRingBufferQueue} (hwf : q.wf) (hpos : 0 < q.count) :
    (q.buffer.getD q.head none).isSome = true := by
  obtain ⟨hcap, hlen, hcnt, hhead, htail, hocc⟩ := hwf
  rw [hocc q.head hhead]
  rw [occupiedB_iff]
  exact ⟨0, hpos, by rw [Nat.add_zero, Nat.mod_eq_of_lt hhead]⟩

lemma contentsFIFO_pushUnlocked {q : MutexRingBufferQueue} (r : LogRecord)
    (hwf : q.wf) (hlt : q.count < q.capacity) :
    (pushUnlocked q r).contentsFIFO = q.contentsFIFO ++ [r] := by
  have htl : q.tail < q.capacity := tail_lt_capacity hwf
  obtain ⟨hcap, hlen, hcnt, hhead, htail, hocc⟩ := hwf
  unfold contentsFIFO
  simp only [pushUnlocked]
  rw [List.range_succ, List.filterMap_append]
  congr 1
  · apply List.filterMap_congr
    intro j hj
    have hj2 : j < q.count := List.mem_range.mp hj
    apply getD_set_ne
    rw [htail]
    intro h
    have := mod_add_cancel q.capacity (by omega) (by omega) h
    omega
  · have hidx : (q.head + q.count) % q.capacity = q.tail := htail.symm
    simp only [List.filterMap_cons, List.filterMap_nil, hidx]
    rw [getD_set_self _ _ _ _ (by rwa [hlen])]

lemma contentsFIFO_popOldest {q : MutexRingBufferQueue}
    (hwf : q.wf) (hpos : 0 < q.count) :
    q.contentsFIFO = (q.buffer.getD q.head none).toList ++ (popOldestUnlocked q).contentsFIFO := by
  obtain ⟨hcap, hlen, hcnt, hhead, htail, hocc⟩ := hwf
  unfold contentsFIFO
  have hc : q.count = (q.count - 1) + 1 := by omega
  rw [hc, List.range_succ_eq_map, List.filterMap_cons, List.filterMap_map]
  have hTail :
      List.filterMap ((fun j => q.buffer.getD ((q.head + j) % q.capacity) none) ∘ Nat.succ)
        (List.range (q.count - 1))
      = (popOldestUnlocked q).contentsFIFO := by
    unfold contentsFIFO
    simp only [popOldestUnlocked]
    apply List.filterMap_congr
    intro j hj
    have hj2 : j < q.count - 1 := List.mem_range.mp hj
    have hidx : (q.head + Nat.succ j) % q.capacity
        = ((q.head + 1) % q.capacity + j) % q.capacity := by
      rw [Nat.mod_add_mod]
      congr 1
      omega
    have hne : q.head ≠ ((q.head + 1) % q.capacity + j) % q.capacity := by
      intro h
      rw [Nat.mod_add_mod] at h
      have e1 : (q.head + 0) % q.capacity = q.head := by
        rw [Nat.add_zero, Nat.mod_eq_of_lt hhead]
      have e2 : (q.head + (1 + j)) % q.capacity = (q.head + 1 + j) % q.capacity := by
        congr 1
        omega
      have hje2 : (q.head + 0) % q.capacity = (q.head + (1 + j)) % q.capacity := by
        rw [e1, e2, ← h]
      have := mod_add_cancel q.capacity (by omega) (by omega) hje2
      omega
    simp only [Function.comp]
    rw [hidx]
    exact (getD_set_ne _ _ _ _ _ hne).symm
  rw [hTail]
  have hhd : (q.head + 0) % q.capacity = q.head := by
    rw [Nat.add_zero, Nat.mod_eq_of_lt hhead]
  rw [hhd]
  cases hslot : q.buffer.getD q.head none <;> rfl

lemma wf_dequeueSteps :
    ∀ (n : Nat) (q : MutexRingBufferQueue) (out : List LogRecord),
      q.wf → n ≤ q.count → (dequeueSteps n q out).1.wf
  | 0, q, _, hwf, _ => hwf
  | Nat.succ n, q, out, hwf, hn => by
      have hpos : 0 < q.count := by omega
      have hpop := wf_popOldest hwf hpos
      rw [dequeueSteps]
      exact wf_dequeueSteps n _ _ hpop (by simp only [popOldestUnlocked]; omega)

lemma dequeueSteps_full :
    ∀ (n : Nat) (q : MutexRingBufferQueue) (out : List LogRecord),
      q.wf → n = q.count → (dequeueSteps n q out).2 = out ++ q.contentsFIFO
  | 0, q, out, _, h0 => by
      have : q.contentsFIFO = [] := by
        unfold contentsFIFO
        rw [← h0]
        rfl
      simp [dequeueSteps, this]
  | Nat.succ n, q, out, hwf, hn => by
      have hpos : 0 < q.count := by omega
      have hpop := wf_popOldest hwf hpos
      rw [dequeueSteps]
      rw [dequeueSteps_full n _ _ hpop (by simp only [popOldestUnlocked]; omega)]
      rw [contentsFIFO_popOldest hwf hpos, List.append_assoc]

lemma wf_dequeueBatch {q : MutexRingBufferQueue} (max : Nat) (hwf : q.wf) :
    (dequeueBatch q max).1.wf :=
  wf_dequeueSteps _ _ _ hwf (Nat.min_le_left _ _)

lemma dequeueBatch_full {q : MutexRingBufferQueue} (hwf : q.wf) :
    (dequeueBatch q q.count).2 = q.contentsFIFO := by
  unfold dequeueBatch
  rw [Nat.min_self]
  rw [dequeueSteps_full q.count q [] hwf rfl]
  rfl

lemma wf_enqueue {q q' : MutexRingBufferQueue} {r : LogRecord} {res : EnqueueResult}
    (hwf : q.wf) (h : enqueue q r = some (q', res)) : q'.wf := by
  unfold enqueue at h
  split at h
  · cases h
    exact hwf
  · split at h
    · split at h
      · cases h
        exact wf_pushUnlocked r hwf (by assumption)
      · cases h
    · split at h
      · split at h
        · cases h
          exact hwf
        · cases h
          have hcap : 0 < q.capacity := hwf.1
          have hcnt : q.count ≤ q.capacity := hwf.2.2.1
          have hpos : 0 < q.count := by omega
          exact wf_pushUnlocked r (wf_popOldest hwf hpos)
            (by simp only [popOldestUnlocked]; omega)
      · cases h
        exact wf_pushUnlocked r hwf (by omega)

/-- C5: the ring-buffer invariant (`count ≤ capacity` with a consistent
head/tail/count window of exactly `count` engaged slots) holds for the
freshly constructed queue and is preserved by every queue operation —
enqueue under each overflow policy, batched dequeue, `request_stop` and
`kick_for_flush` — hence by every reachable state. -/
theorem C5_queue_invariant_holds (q : MutexRingBufferQueue)
    (h : MutexRingBufferQueue.Reach q) : q.wf := by
  induction h with
  | init c p => exact wf_mkQueue c p
  | enq q q' r res hr henq ih => exact wf_enqueue ih henq
  | deq q max hr ih => exact wf_dequeueBatch max ih
  | stop q hr ih => exact wf_requestStop ih
  | kick q hr ih => exact wf_kickForFlush ih

/-- Witness for C5: a concrete reachable state (capacity-1 queue after
one successful enqueue) satisfies the invariant. -/
theorem C5_queue_invariant_holds_witness :
    MutexRingBufferQueue.wf
      { capacity := 1, policy := OverflowPolicy.DropNewest,
        buffer := [some { level := Level.Info, loggerName := "a", message := "m" }],
        head := 0, tail := 0, count := 1,
        stopRequested := false, flushKick := false } :=
  C5_queue_invariant_holds _
    (MutexRingBufferQueue.Reach.enq _ _
      { level := Level.Info, loggerName := "a", message := "m" }
      { enqueued := true, dropped := 0 }
      (MutexRingBufferQueue.Reach.init 1 OverflowPolicy.DropNewest)
      (by decide))

lemma contentsFIFO_dropOldest {q : MutexRingBufferQueue} (r : LogRecord)
    (hwf : q.wf) (hfull : q.count = q.capacity) :
    (pushUnlocked (popOldestUnlocked q) r).contentsFIFO = q.contentsFIFO.tail ++ [r] := by
  have hcap : 0 < q.capacity := hwf.1
  have hpos : 0 < q.count := by omega
  have hpop := wf_popOldest hwf hpos
  have hlt : (popOldestUnlocked q).count < (popOldestUnlocked q).capacity := by
    simp only [popOldestUnlocked]
    omega
  rw [contentsFIFO_pushUnlocked r hpop hlt]
  have hsome := head_slot_isSome hwf hpos
  obtain ⟨v, hv⟩ := Option.isSome_iff_exists.mp hsome
  have hdec := contentsFIFO_popOldest hwf hpos
  rw [hv] at hdec
  rw [hdec]
  rfl

/-- C4: on a full queue (count = capacity, stop not requested),
`DropNewest` rejects the incoming record with `enqueued=false` and drop
count 1 leaving the state unchanged, while `DropOldest` evicts exactly
the oldest queued record, inserts the incoming one, and reports
`enqueued=true` with drop count 1, a subsequent full batched dequeue
returning the survivors in FIFO order (old contents minus the head,
plus the new record at the back); a non-full enqueue succeeds
immediately with drop count 0 under every policy. -/
theorem C4_overflow_policy_behaviour :
    (∀ (q : MutexRingBufferQueue) (r : LogRecord),
        q.wf → q.stopRequested = false → q.count = q.capacity →
        q.policy = OverflowPolicy.DropNewest →
        MutexRingBufferQueue.enqueue q r
          = some (q, { enqueued := false, dropped := 1 })) ∧
    (∀ (q : MutexRingBufferQueue) (r : LogRecord),
        q.wf → q.stopRequested = false → q.count = q.capacity →
        q.policy = OverflowPolicy.DropOldest →
        MutexRingBufferQueue.enqueue q r
            = some
              (MutexRingBufferQueue.pushUnlocked (MutexRingBufferQueue.popOldestUnlocked q) r,
                { enqueued := true, dropped := 1 }) ∧
          (MutexRingBufferQueue.dequeueBatch
              (MutexRingBufferQueue.pushUnlocked (MutexRingBufferQueue.popOldestUnlocked q) r)
              (MutexRingBufferQueue.pushUnlocked
                (MutexRingBufferQueue.popOldestUnlocked q) r).count).2
            = q.contentsFIFO.tail ++ [r]) ∧
    (∀ (q : MutexRingBufferQueue) (r : LogRecord),
        q.wf → q.stopRequested = false → q.count < q.capacity →
        MutexRingBufferQueue.enqueue q r
          = some (MutexRingBufferQueue.pushUnlocked q r, { enqueued := true, dropped := 0 })) ∧
    (∀ q : MutexRingBufferQueue, q.wf →
        (MutexRingBufferQueue.dequeueBatch q q.count).2 = q.contentsFIFO) := by
  refine ⟨?_, ?_, ?_, ?_⟩
  · intro q r hwf hstop hfull hpol
    simp [enqueue, hstop, hpol, hfull]
  · intro q r hwf hstop hfull hpol
    have hcap : 0 < q.capacity := hwf.1
    have hpos : 0 < q.count := by omega
    have hwfr := wf_pushUnlocked r (wf_popOldest hwf hpos)
      (by simp only [popOldestUnlocked]; omega)
    refine ⟨by simp [enqueue, hstop, hpol, hfull], ?_⟩
    rw [dequeueBatch_full hwfr]
    exact contentsFIFO_dropOldest r hwf hfull
  · intro q r hwf hstop hlt
    cases hp : q.policy <;>
      simp [enqueue, hstop, hp, hlt, Nat.not_le.mpr hlt]
  · intro q hwf
    exact dequeueBatch_full hwf

/-- Witness for C4: the capacity-1 scenarios from the claim.  With the
queue holding record `a`: under `DropNewest` enqueueing `b` is rejected
with one drop and the state is untouched; under `DropOldest` enqueueing
`b` succeeds with one drop and a full dequeue yields `[b]`; on the empty
capacity-1 queue enqueueing `b` succeeds with zero drops. -/
theorem C4_overflow_policy_behaviour_witness :
    (MutexRingBufferQueue.enqueue
        { capacity := 1, policy := OverflowPolicy.DropNewest,
          buffer := [some { level := Level.Info, loggerName := "q", message := "a" }],
          head := 0, tail := 0, count := 1, stopRequested := false, flushKick := false }
        { level := Level.Info, loggerName := "q", message := "b" }
      = some
        ({ capacity := 1, policy := OverflowPolicy.DropNewest,
           buffer := [some { level := Level.Info, loggerName := "q", message := "a" }],
           head := 0, tail := 0, count := 1, stopRequested := false, flushKick := false },
          { enqueued := false, dropped := 1 })) ∧
    ((MutexRingBufferQueue.dequeueBatch
        (MutexRingBufferQueue.pushUnlocked
          (MutexRingBufferQueue.popOldestUnlocked
            { capacity := 1, policy := OverflowPolicy.DropOldest,
              buffer := [some { level := Level.Info, loggerName := "q", message := "a" }],
              head := 0, tail := 0, count := 1, stopRequested := false, flushKick := false })
          { level := Level.Info, loggerName := "q", message := "b" })
        1).2
      = [{ level := Level.Info, loggerName := "q", message := "b" }]) := by
  constructor
  · exact C4_overflow_policy_behaviour.1 _ _ (by decide) rfl rfl rfl
  · have h := (C4_overflow_policy_behaviour.2.1
      { capacity := 1, policy := OverflowPolicy.DropOldest,
        buffer := [some { level := Level.Info, loggerName := "q", message := "a" }],
        head := 0, tail := 0, count := 1, stopRequested := false, flushKick := false }
      { level := Level.Info, loggerName := "q", message := "b" }
      (by decide) rfl rfl rfl).2
    simpa using h

end MutexRingBufferQueue

/-- `AsyncOptions`, `async_sink.hpp` lines 39–54: queue capacity
(default 1024), overflow policy (default `Block`) and worker batch size
(default 256). -/
structure AsyncOptions where
  capacity : Nat := 1024
  overflow_policy : OverflowPolicy := OverflowPolicy.Block
  max_batch : Nat := 256
deriving DecidableEq, Repr

/-- `AsyncSink` constructor normalisation, `async_sink.cpp` lines 24–38:
after the null-wrapped-sink check, a zero `capacity` and a zero
`max_batch` are each silently clamped to 1; the queue is then built from
the normalised options. -/
def normalizeAsyncOptions (o : AsyncOptions) : AsyncOptions :=
  let o1 := if o.capacity = 0 then { o with capacity := 1 } else o
  if o1.max_batch = 0 then { o1 with max_batch := 1 } else o1

/-- C9: constructing the pipeline with `capacity = 0` or `max_batch = 0`
clamps the zero to 1 instead of failing (other fields untouched), and a
ring-buffer queue constructed with capacity 0 is the very same state as
one constructed with capacity 1, hence behaves identically under all
subsequent operations. -/
theorem C9_zero_options_clamped_to_one :
    (∀ o : AsyncOptions,
        (normalizeAsyncOptions o).capacity = (if o.capacity = 0 then 1 else o.capacity) ∧
        (normalizeAsyncOptions o).max_batch = (if o.max_batch = 0 then 1 else o.max_batch) ∧
        (normalizeAsyncOptions o).overflow_policy = o.overflow_policy) ∧
    (∀ p : OverflowPolicy,
        MutexRingBufferQueue.mkQueue 0 p = MutexRingBufferQueue.mkQueue 1 p) := by
  constructor
  · intro o
    by_cases h1 : o.capacity = 0 <;> by_cases h2 : o.max_batch = 0 <;>
      simp [normalizeAsyncOptions, h1, h2]
  · intro p
    rfl

/-! ## Logger hierarchy (`logger.cpp`, `logger.hpp`)

A destination (`ISink`) is characterised, for the claims at hand, by
whether its `write` and its `flush` throw; the embedding records a
throwing call as `Except.error ()`. -/

/-- Failure behaviour of one destination: `write`/`flush` either return
normally or throw. -/
structure SinkBehavior where
  writeFails : Bool
  flushFails : Bool
deriving DecidableEq, Repr

/-- `ISink::write` as observed at the call boundary. -/
def SinkBehavior.write (s : SinkBehavior) : Except Unit Unit :=
  if s.writeFails then Except.error () else Except.ok ()

/-- `ISink::flush` as observed at the call boundary. -/
def SinkBehavior.flushCall (s : SinkBehavior) : Except Unit Unit :=
  if s.flushFails then Except.error () else Except.ok ()

/-- Per-logger state, `logger.hpp` lines 146–172 (plus the
`immediate_flush_` / `immediate_flush_overridden_` members used by
`logger.cpp` lines 115–139): stored level (default `Info`), override
flags (default false), sink list, counters.  The test suite pins the
immediate-flush default to false. -/
structure LoggerFields where
  name : String
  level : Level := Level.Info
  levelOverridden : Bool := false
  sinks : List SinkBehavior := []
  sinksOverridden : Bool := false
  immediateFlush : Bool := false
  immediateFlushOverridden : Bool := false
  droppedRecordsCount : Nat := 0
  sinkFailuresCount : Nat := 0
deriving DecidableEq, Repr

/-- A logger with its ancestor chain.  The C++ logger holds a weak
parent pointer assigned once by the registry from strict dotted-name
prefixes, so every parent chain is finite and acyclic and the upward
recursion of the `effective_*` readers is structural. -/
inductive Logger : Type where
  | root (st : LoggerFields) : Logger
  | node (st : LoggerFields) (parent : Logger) : Logger
deriving DecidableEq, Repr

/-- Own fields of the logger node. -/
def Logger.st : Logger → LoggerFields
  | .root st => st
  | .node st _ => st

/-- `Logger::set_level`, `logger.cpp` lines 14–18: store the level and
raise the override flag. -/
def Logger.setLevel (l : Logger) (v : Level) : Logger :=
  match l with
  | .root st => .root { st with level := v, levelOverridden := true }
  | .node st p => .node { st with level := v, levelOverridden := true } p

/-- `Logger::clear_level_override`, lines 20–23: lower the override flag
only; the stored `level_` keeps its last value. -/
def Logger.clearLevelOverride : Logger → Logger
  | .root st => .root { st with levelOverridden := false }
  | .node st p => .node { st with levelOverridden := false } p

/-- `Logger::effective_level`, lines 25–38: the override if set, else
the parent's effective level if a parent exists, else the stored
`level_` field (at a root both the overridden and the unoverridden
branch return `level_`). -/
def Logger.effectiveLevel : Logger → Level
  | .root st => st.level
  | .node st p => if st.levelOverridden then st.level else p.effectiveLevel

/-- `Logger::add_sink`, lines 40–44: append and raise the override flag. -/
def Logger.addSink (l : Logger) (s : SinkBehavior) : Logger :=
  match l with
  | .root st => .root { st with sinks := st.sinks ++ [s], sinksOverridden := true }
  | .node st p => .node { st with sinks := st.sinks ++ [s], sinksOverridden := true } p

/-- `Logger::set_sinks`, lines 46–50: replace and raise the override flag. -/
def Logger.setSinks (l : Logger) (ss : List SinkBehavior) : Logger :=
  match l with
  | .root st => .root { st with sinks := ss, sinksOverridden := true }
  | .node st p => .node { st with sinks := ss, sinksOverridden := true } p

/-- `Logger::clear_sink_override`, lines 52–56: lower the flag and clear
the stored list. -/
def Logger.clearSinkOverride : Logger → Logger
  | .root st => .root { st with sinks := [], sinksOverridden := false }
  | .node st p => .node { st with sinks := [], sinksOverridden := false } p

/-- `Logger::effective_sinks`, lines 58–71: the override list if active,
else the parent's effective list, else empty. -/
def Logger.effectiveSinks : Logger → List SinkBehavior
  | .root st => if st.sinksOverridden then st.sinks else []
  | .node st p => if st.sinksOverridden then st.sinks else p.effectiveSinks

/-- `Logger::set_immediate_flush`, lines 115–119. -/
def Logger.setImmediateFlush (l : Logger) (b : Bool) : Logger :=
  match l with
  | .root st => .root { st with immediateFlush := b, immediateFlushOverridden := true }
  | .node st p => .node { st with immediateFlush := b, immediateFlushOverridden := true } p

/-- `Logger::clear_immediate_flush_override`, lines 121–124. -/
def Logger.clearImmediateFlushOverride : Logger → Logger
  | .root st => .root { st with immediateFlushOverridden := false }
  | .node st p => .node { st with immediateFlushOverridden := false } p

/-- `Logger::effective_immediate_flush`, lines 126–139: override if set,
else parent, else the stored flag. -/
def Logger.effectiveImmediateFlush : Logger → Bool
  | .root st => st.immediateFlush
  | .node st p => if st.immediateFlushOverridden then st.immediateFlush else p.effectiveImmediateFlush

/-- A destination-call event recorded during `Logger::log`, indexed by
the sink's position in the effective list. -/
inductive SinkEvent : Type where
  | writeOk (idx : Nat) : SinkEvent
  | writeFailed (idx : Nat) : SinkEvent
  | flushOk (idx : Nat) : SinkEvent
  | flushFailed (idx : Nat) : SinkEvent
deriving DecidableEq, Repr

/-- The per-sink body of the loop in `Logger::log`, lines 86–95:
`try { sink->write(record); if (do_flush) sink->flush(); } catch (...)
{ ++sink_failures; }` — a throwing `write` skips the flush, any throw
is caught at this boundary and counted exactly once for this sink. -/
def Logger.logOneSink (doFlush : Bool) (idx : Nat) (s : SinkBehavior) :
    Nat × List SinkEvent :=
  match s.write with
  | Except.error _ => (1, [SinkEvent.writeFailed idx])
  | Except.ok _ =>
      if doFlush then
        match s.flushCall with
        | Except.error _ => (1, [SinkEvent.writeOk idx, SinkEvent.flushFailed idx])
        | Except.ok _ => (0, [SinkEvent.writeOk idx, SinkEvent.flushOk idx])
      else
        (0, [SinkEvent.writeOk idx])

/-- The `for (const auto and sink : sinks)` loop of `Logger::log`:
failures accumulate, and the loop always advances to the next sink. -/
def Logger.logLoop (doFlush : Bool) : Nat → List SinkBehavior → Nat × List SinkEvent
  | _, [] => (0, [])
  | idx, s :: rest =>
      let here := Logger.logOneSink doFlush idx s
      let later := Logger.logLoop doFlush (idx + 1) rest
      (here.1 + later.1, here.2 ++ later.2)

/-- Observable outcome of one `Logger::log` call: the increments applied
to the two counters and the destination-call events. -/
structure LogOutcome where
  droppedInc : Nat
  failuresInc : Nat
  events : List SinkEvent
deriving DecidableEq, Repr

/-- `Logger::log`, `logger.cpp` lines 77–99.  The filtered-record branch
(lines 79–81) is a bare `return`: it performs NO counter increment.  The
outer `catch (...)` (lines 96–98) — the only place that increments
`dropped_records_count_` — is unreachable, because the embedded reads
`effectiveLevel` / `effectiveSinks` / `effectiveImmediateFlush` are
total and the per-sink loop catches every sink failure locally; the
function as a whole never propagates an error. -/
def Logger.log (l : Logger) (r : LogRecord) : LogOutcome :=
  if Level.ltb r.level l.effectiveLevel then
    { droppedInc := 0, failuresInc := 0, events := [] }
  else
    let res := Logger.logLoop l.effectiveImmediateFlush 0 l.effectiveSinks
    { droppedInc := 0, failuresInc := res.1, events := res.2 }

/-- Number of sinks in a list whose `write`, or (with immediate flush
enabled) whose `flush`, throws: the failures `Logger::log` counts. -/
def failingSinkCount (doFlush : Bool) (sinks : List SinkBehavior) : Nat :=
  (sinks.filter (fun s => s.writeFails || (doFlush && s.flushFails))).length

/-- Indices of sinks whose `write` was invoked (successfully or not),
in event order. -/
def writeAttempts (evs : List SinkEvent) : List Nat :=
  evs.filterMap (fun e =>
    match e with
    | SinkEvent.writeOk i => some i
    | SinkEvent.writeFailed i => some i
    | SinkEvent.flushOk _ => none
    | SinkEvent.flushFailed _ => none)

lemma writeAttempts_append (a b : List SinkEvent) :
    writeAttempts (a ++ b) = writeAttempts a ++ writeAttempts b :=
  List.filterMap_append _ _ _

lemma logOneSink_failures (doFlush : Bool) (idx : Nat) (s : SinkBehavior) :
    (Logger.logOneSink doFlush idx s).1
      = (if s.writeFails || (doFlush && s.flushFails) then 1 else 0) := by
  cases hw : s.writeFails <;> cases hf : s.flushFails <;> cases doFlush <;>
    simp [Logger.logOneSink, SinkBehavior.write, SinkBehavior.flushCall, hw, hf]

lemma logOneSink_writeAttempts (doFlush : Bool) (idx : Nat) (s : SinkBehavior) :
    writeAttempts (Logger.logOneSink doFlush idx s).2 = [idx] := by
  cases hw : s.writeFails <;> cases hf : s.flushFails <;> cases doFlush <;>
    simp [Logger.logOneSink, SinkBehavior.write, SinkBehavior.flushCall,
      writeAttempts, hw, hf]

lemma logLoop_spec (doFlush : Bool) :
    ∀ (sinks : List SinkBehavior) (idx : Nat),
      (Logger.logLoop doFlush idx sinks).1 = failingSinkCount doFlush sinks ∧
      writeAttempts (Logger.logLoop doFlush idx sinks).2 = List.range' idx sinks.length
  | [], _ => ⟨rfl, rfl⟩
  | s :: rest, idx => by
      obtain ⟨ih1, ih2⟩ := logLoop_spec doFlush rest (idx + 1)
      constructor
      · show (Logger.logOneSink doFlush idx s).1
            + (Logger.logLoop doFlush (idx + 1) rest).1 = _
        rw [logOneSink_failures, ih1]
        unfold failingSinkCount
        rw [List.filter_cons]
        split <;> simp <;> omega
      · show writeAttempts ((Logger.logOneSink doFlush idx s).2
            ++ (Logger.logLoop doFlush (idx + 1) rest).2) = _
        rw [writeAttempts_append, logOneSink_writeAttempts, ih2]
        rw [List.length_cons, List.range'_succ]
        rfl

/-! ## Async pipeline pieces used by the error-isolation claim -/

/-- Failure behaviour of the wrapped destination of an `AsyncSink`:
`write` throws exactly on the listed records, `flush` throws iff
`flushFails`. -/
structure WrappedSink where
  writeFailsOn : List LogRecord
  flushFails : Bool
deriving DecidableEq, Repr

/-- Worker batch delivery, `async_sink.cpp` lines 113–122: every record
of the batch is written to the wrapped sink inside its own try/catch; a
failure increments `sink_failures_count_` and the loop continues with
the next record.  Returns the failure increment and the records that
reached the wrapped sink. -/
def deliverBatch (w : WrappedSink) : List LogRecord → Nat × List LogRecord
  | [] => (0, [])
  | r :: rest =>
      let later := deliverBatch w rest
      if w.writeFailsOn.contains r then
        (1 + later.1, later.2)
      else
        (later.1, r :: later.2)

/-- `AsyncSink::write`, `async_sink.cpp` lines 62–73: copy the record
and enqueue it; add `res.dropped` to the drop counter; a rejected,
drop-free enqueue (queue stopping) is re-attributed as one drop.
Returns `none` exactly when a `Block`-policy enqueue leaves the
producer waiting; no path raises an error. -/
def AsyncSink.writeOp (q : MutexRingBufferQueue) (droppedCount : Nat) (r : LogRecord) :
    Option (MutexRingBufferQueue × Nat) :=
  match MutexRingBufferQueue.enqueue q r with
  | none => none
  | some (q', res) =>
      let d1 := if 0 < res.dropped then droppedCount + res.dropped else droppedCount
      let d2 := if !res.enqueued && res.dropped == 0 then d1 + 1 else d1
      some (q', d2)

lemma enqueue_isSome_of_not_block {q : MutexRingBufferQueue} (r : LogRecord)
    (hpol : q.policy ≠ OverflowPolicy.Block) :
    (MutexRingBufferQueue.enqueue q r).isSome = true := by
  unfold MutexRingBufferQueue.enqueue
  by_cases h1 : q.stopRequested <;> by_cases h2 : q.capacity ≤ q.count <;>
    by_cases h3 : q.policy = OverflowPolicy.DropNewest <;>
      simp [h1, h2, h3, hpol]

lemma enqueue_stop {q : MutexRingBufferQueue} (r : LogRecord)
    (hstop : q.stopRequested = true) :
    MutexRingBufferQueue.enqueue q r = some (q, { enqueued := false, dropped := 0 }) := by
  unfold MutexRingBufferQueue.enqueue
  rw [if_pos hstop]

/-! ## Claims C1, C2, C6 -/

/-- C1 (code bug): contrary to the claim — and to the spec and the
header's own documentation of `dropped_records_count` ("number of
records dropped (typically due to filtering)") — a record whose
severity is below the effective threshold does NOT increment the
dropped-by-filter counter: `Logger::log` lines 79–81 perform a bare
`return`.  The counter increment sits only in the unreachable outer
catch.  The claim's second half holds: no destination is invoked. -/
theorem C1_filter_drop_not_counted (l : Logger) (r : LogRecord)
    (h : Level.ltb r.level l.effectiveLevel = true) :
    Logger.log l r = { droppedInc := 0, failuresInc := 0, events := [] } := by
  unfold Logger.log
  rw [if_pos h]

/-- Witness for C1: a default (threshold Info) root logger with one
attached sink filters a Debug record with no counter change and no
destination call. -/
theorem C1_filter_drop_not_counted_witness :
    Logger.log
        (Logger.root
          { name := "root",
            sinks := [{ writeFails := false, flushFails := false }],
            sinksOverridden := true })
        { level := Level.Debug, loggerName := "root", message := "m" }
      = { droppedInc := 0, failuresInc := 0, events := [] } :=
  C1_filter_drop_not_counted _ _ (by decide)

/-- C2 counterexample: a parentless logger whose override is not set
does not always yield the process default Info — after `set_level(Error)`
followed by `clear_level_override()` the stale stored `level_` (Error)
is returned, because `clear_level_override` only lowers the flag and the
parentless fallback returns the stored field, not a constant default. -/
theorem C2_counterexample_stale_level_after_clear :
    Logger.effectiveLevel
        (Logger.clearLevelOverride
          (Logger.setLevel (Logger.root { name := "root" }) Level.Error))
      = Level.Error ∧ Level.Error ≠ Level.Info := by
  exact ⟨rfl, by decide⟩

/-- C2 amended: for a parentless logger with no level override,
`effective_level()` returns the logger's stored local level: Info for a
logger whose level was never set (the field's initial value), while
after `set_level(V)` followed by `clear_level_override()` it is V — the
last explicitly set value, not necessarily Info. -/
theorem C2_unoverridden_root_level (st : LoggerFields)
    (hov : st.levelOverridden = false) :
    Logger.effectiveLevel (Logger.root st) = st.level ∧
    (∀ name : String,
        Logger.effectiveLevel (Logger.root { name := name }) = Level.Info) ∧
    (∀ (st2 : LoggerFields) (v : Level),
        Logger.effectiveLevel
            (Logger.clearLevelOverride (Logger.setLevel (Logger.root st2) v)) = v) := by
  refine ⟨rfl, fun _ => rfl, fun _ _ => rfl⟩

/-- Witness for C2's amended statement at a concrete unoverridden root. -/
theorem C2_unoverridden_root_level_witness :
    Logger.effectiveLevel (Logger.root { name := "a", level := Level.Warn }) = Level.Warn ∧
    (∀ name : String,
        Logger.effectiveLevel (Logger.root { name := name }) = Level.Info) ∧
    (∀ (st2 : LoggerFields) (v : Level),
        Logger.effectiveLevel
            (Logger.clearLevelOverride (Logger.setLevel (Logger.root st2) v)) = v) :=
  C2_unoverridden_root_level { name := "a", level := Level.Warn } rfl

/-- C6: failures of a destination are caught at the nearest boundary
and degrade to counters.  In `Logger::log`, the failure counter rises by
exactly one per sink whose `write` (or, with immediate flush on, whose
`flush`) throws, and every sink in the effective list still receives a
`write` call, in order, whatever earlier sinks did.  In the async worker
loop, each failing delivery adds one to the failure counter and the
batch continues with the remaining records.  `AsyncSink::write`
completes for every non-`Block` queue, and a stopping queue degrades to
a counted drop.  The embedded `Logger.log`, `deliverBatch` and
`AsyncSink.writeOp` are total: no error value escapes any of them. -/
theorem C6_destination_failure_isolation :
    (∀ (l : Logger) (r : LogRecord),
        Level.ltb r.level (Logger.effectiveLevel l) = false →
        (Logger.log l r).failuresInc
            = failingSinkCount (Logger.effectiveImmediateFlush l) (Logger.effectiveSinks l) ∧
          writeAttempts (Logger.log l r).events
            = List.range' 0 (Logger.effectiveSinks l).length) ∧
    (∀ (w : WrappedSink) (batch : List LogRecord),
        (deliverBatch w batch).1
            = (batch.filter (fun r => w.writeFailsOn.contains r)).length ∧
          (deliverBatch w batch).2
            = batch.filter (fun r => !(w.writeFailsOn.contains r))) ∧
    (∀ (q : MutexRingBufferQueue) (d : Nat) (r : LogRecord),
        q.policy ≠ OverflowPolicy.Block →
        (AsyncSink.writeOp q d r).isSome = true) ∧
    (∀ (q : MutexRingBufferQueue) (d : Nat) (r : LogRecord),
        q.stopRequested = true →
        AsyncSink.writeOp q d r = some (q, d + 1)) := by
  refine ⟨?_, ?_, ?_, ?_⟩
  · intro l r h
    unfold Logger.log
    rw [if_neg (by rw [h]; exact Bool.false_ne_true)]
    exact logLoop_spec l.effectiveImmediateFlush l.effectiveSinks 0
  · intro w batch
    induction batch with
    | nil => exact ⟨rfl, rfl⟩
    | cons r rest ih =>
        obtain ⟨ih1, ih2⟩ := ih
        unfold deliverBatch
        rw [List.filter_cons, List.filter_cons]
        cases hc : w.writeFailsOn.contains r
        · simp only [hc, Bool.not_false, if_neg, ite_true, ite_false]
          exact ⟨by simpa using ih1, by simp [ih2]⟩
        · simp only [hc, Bool.not_true, ite_true, ite_false]
          refine ⟨?_, by simpa using ih2⟩
          rw [List.length_cons, ih1]
          omega
  · intro q d r hpol
    obtain ⟨p, hp⟩ := Option.isSome_iff_exists.mp (enqueue_isSome_of_not_block r hpol)
    simp [AsyncSink.writeOp, hp]
  · intro q d r hstop
    simp [AsyncSink.writeOp, enqueue_stop r hstop]

/-- Witness for C6: the repo's own scenario ("log swallows sink
exceptions and continues"): a root logger with a throwing first sink and
a healthy second sink records exactly one failure and still writes to
both sinks in order; a worker batch with one poisoned record counts one
failure and delivers the rest; a stopped queue degrades a write to a
counted drop. -/
theorem C6_destination_failure_isolation_witness :
    ((Logger.log
        (Logger.root
          { name := "root",
            sinks := [{ writeFails := true, flushFails := false },
                      { writeFails := false, flushFails := false }],
            sinksOverridden := true })
        { level := Level.Info, loggerName := "root", message := "msg" }).failuresInc = 1 ∧
      writeAttempts (Logger.log
        (Logger.root
          { name := "root",
            sinks := [{ writeFails := true, flushFails := false },
                      { writeFails := false, flushFails := false }],
            sinksOverridden := true })
        { level := Level.Info, loggerName := "root", message := "msg" }).events = [0, 1]) ∧
    AsyncSink.writeOp
        (MutexRingBufferQueue.requestStop
          (MutexRingBufferQueue.mkQueue 4 OverflowPolicy.DropNewest))
        0 { level := Level.Info, loggerName := "root", message := "msg" }
      = some
        (MutexRingBufferQueue.requestStop
          (MutexRingBufferQueue.mkQueue 4 OverflowPolicy.DropNewest), 1) := by
  constructor
  · obtain ⟨h1, h2⟩ := C6_destination_failure_isolation.1
      (Logger.root
        { name := "root",
          sinks := [{ writeFails := true, flushFails := false },
                    { writeFails := false, flushFails := false }],
          sinksOverridden := true })
      { level := Level.Info, loggerName := "root", message := "msg" }
      (by decide)
    exact ⟨by rw [h1]; decide, by rw [h2]; decide⟩
  · exact C6_destination_failure_isolation.2.2.2 _ 0 _ rfl

/-! ## Lock traces of the upward configuration readers (claim C8)

`Logger::effective_level` (lines 25–38), `Logger::effective_sinks`
(lines 58–71) and `Logger::effective_immediate_flush` (lines 126–139)
all open with `std::lock_guard<std::mutex> lock(mutex_);`.  A
`lock_guard` releases at scope exit, AFTER the return expression is
evaluated — so the guard is still held during the recursive call
`parent->effective_…()`.  The trace model below records exactly that
scoping. -/

/-- A mutex acquire/release event; nodes along the queried chain are
numbered by distance from the logger the read started at (all nodes on
a registry chain are distinct, so depth identifies the mutex). -/
inductive LockEvent : Type where
  | acq (depth : Nat) : LockEvent
  | rel (depth : Nat) : LockEvent
deriving DecidableEq, Repr

/-- Lock trace shared by the three upward readers: acquire own mutex at
entry; if the reader's override flag (`ov`) is set, or the parent is
null, return — releasing at exit; otherwise perform the parent's entire
read BETWEEN this node's acquire and release. -/
def upwardReadTrace (ov : LoggerFields → Bool) : Logger → Nat → List LockEvent
  | .root _, d => [LockEvent.acq d, LockEvent.rel d]
  | .node st p, d =>
      if ov st then [LockEvent.acq d, LockEvent.rel d]
      else LockEvent.acq d :: (upwardReadTrace ov p (d + 1) ++ [LockEvent.rel d])

/-- `Logger::effective_level`'s lock behaviour (branches on
`level_overridden_`). -/
def Logger.effectiveLevelTrace (l : Logger) (d : Nat) : List LockEvent :=
  upwardReadTrace (fun st => st.levelOverridden) l d

/-- `Logger::effective_sinks`'s lock behaviour (branches on
`sinks_overridden_`). -/
def Logger.effectiveSinksTrace (l : Logger) (d : Nat) : List LockEvent :=
  upwardReadTrace (fun st => st.sinksOverridden) l d

/-- `Logger::effective_immediate_flush`'s lock behaviour (branches on
`immediate_flush_overridden_`). -/
def Logger.effectiveImmediateFlushTrace (l : Logger) (d : Nat) : List LockEvent :=
  upwardReadTrace (fun st => st.immediateFlushOverridden) l d

/-- Number of locks held after processing a trace, starting from `cur`
held (depths along a chain are distinct, so a running count equals the
held-set size). -/
def runHeld : Nat → List LockEvent → Nat
  | cur, [] => cur
  | cur, LockEvent.acq _ :: rest => runHeld (cur + 1) rest
  | cur, LockEvent.rel _ :: rest => runHeld (cur - 1) rest

def maxHeldAux : Nat → Nat → List LockEvent → Nat
  | _, best, [] => best
  | cur, best, LockEvent.acq _ :: rest => maxHeldAux (cur + 1) (max best (cur + 1)) rest
  | cur, best, LockEvent.rel _ :: rest => maxHeldAux (cur - 1) best rest

/-- Maximum number of locks simultaneously held at any point of a
trace. -/
def maxHeld (tr : List LockEvent) : Nat :=
  maxHeldAux 0 0 tr

/-- Number of chain nodes an upward reader visits: down to the first
node whose override flag is set, or to the root. -/
def walkLen (ov : LoggerFields → Bool) : Logger → Nat
  | .root _ => 1
  | .node st p => if ov st then 1 else 1 + walkLen ov p

lemma upwardReadTrace_node (ov : LoggerFields → Bool) (st : LoggerFields) (p : Logger)
    (d : Nat) (h : ov st = false) :
    upwardReadTrace ov (Logger.node st p) d
      = LockEvent.acq d :: (upwardReadTrace ov p (d + 1) ++ [LockEvent.rel d]) := by
  simp only [upwardReadTrace, h]
  simp

lemma runHeld_append (xs ys : List LockEvent) :
    ∀ cur : Nat, runHeld cur (xs ++ ys) = runHeld (runHeld cur xs) ys := by
  induction xs with
  | nil => intro cur; rfl
  | cons e rest ih => intro cur; cases e <;> simp [runHeld, ih]

lemma maxHeldAux_append (xs ys : List LockEvent) :
    ∀ cur best : Nat,
      maxHeldAux cur best (xs ++ ys)
        = maxHeldAux (runHeld cur xs) (maxHeldAux cur best xs) ys := by
  induction xs with
  | nil => intro cur best; rfl
  | cons e rest ih => intro cur best; cases e <;> simp [maxHeldAux, runHeld, ih]

lemma runHeld_upwardReadTrace (ov : LoggerFields → Bool) :
    ∀ (l : Logger) (d cur : Nat), runHeld cur (upwardReadTrace ov l d) = cur
  | .root _, _, _ => rfl
  | .node st p, d, cur => by
      unfold upwardReadTrace
      split
      · rfl
      · show runHeld cur (LockEvent.acq d :: (upwardReadTrace ov p (d + 1) ++ [LockEvent.rel d])) = cur
        rw [runHeld, runHeld_append, runHeld_upwardReadTrace ov p (d + 1) (cur + 1)]
        rfl

lemma maxHeldAux_upwardReadTrace (ov : LoggerFields → Bool) :
    ∀ (l : Logger) (d cur best : Nat),
      maxHeldAux cur best (upwardReadTrace ov l d) = max best (cur + walkLen ov l)
  | .root _, d, cur, best => by
      show maxHeldAux cur best [LockEvent.acq d, LockEvent.rel d] = _
      unfold maxHeldAux maxHeldAux maxHeldAux walkLen
      rfl
  | .node st p, d, cur, best => by
      unfold upwardReadTrace walkLen
      split
      · unfold maxHeldAux maxHeldAux maxHeldAux
        rfl
      · rw [maxHeldAux]
        rw [maxHeldAux_append, runHeld_upwardReadTrace ov p (d + 1) (cur + 1)]
        rw [maxHeldAux_upwardReadTrace ov p (d + 1) (cur + 1) (max best (cur + 1))]
        show maxHeldAux (cur + 1 - 1) (max (max best (cur + 1)) (cur + 1 + walkLen ov p)) []
            = max best (cur + (1 + walkLen ov p))
        unfold maxHeldAux
        omega

lemma maxHeld_upwardReadTrace (ov : LoggerFields → Bool) (l : Logger) (d : Nat) :
    maxHeld (upwardReadTrace ov l d) = walkLen ov l := by
  unfold maxHeld
  rw [maxHeldAux_upwardReadTrace]
  omega

/-- C8 counterexample: on a two-logger chain (child with no level
override under a root), `effective_level` holds the child's and the
parent's lock at the same time — the recorded trace is
acquire-child, acquire-parent, release-parent, release-child, and the
maximum number of simultaneously held Logger locks is 2, not 1.  The
`std::lock_guard` taken at the top of the reader is still in scope when
the parent is queried, contradicting the claimed
lock-then-release-then-recurse discipline. -/
theorem C8_counterexample_two_locks_held :
    Logger.effectiveLevelTrace
        (Logger.node { name := "a.b" } (Logger.root { name := "a" })) 0
      = [LockEvent.acq 0, LockEvent.acq 1, LockEvent.rel 1, LockEvent.rel 0] ∧
    maxHeld (Logger.effectiveLevelTrace
        (Logger.node { name := "a.b" } (Logger.root { name := "a" })) 0) = 2 := by
  exact ⟨rfl, rfl⟩

/-- C8 amended: the upward inheritance reads do NOT release the child's
lock before querying the parent; instead every unoverridden node's
entire parent query happens between that node's own acquire and
release, so the locks held by one thread form a child-to-parent path
whose length reaches exactly the number of chain nodes visited (2 or
more whenever inheritance actually recurses).  Cross-tree deadlock is
instead ruled out by the consistent child-before-parent acquisition
order along the forest. -/
theorem C8_lock_while_recursing :
    (∀ (st : LoggerFields) (p : Logger) (d : Nat), st.levelOverridden = false →
        Logger.effectiveLevelTrace (Logger.node st p) d
          = LockEvent.acq d
              :: (Logger.effectiveLevelTrace p (d + 1) ++ [LockEvent.rel d])) ∧
    (∀ (l : Logger) (d : Nat),
        maxHeld (Logger.effectiveLevelTrace l d)
          = walkLen (fun st => st.levelOverridden) l) ∧
    (∀ (l : Logger) (d : Nat),
        maxHeld (Logger.effectiveSinksTrace l d)
          = walkLen (fun st => st.sinksOverridden) l) ∧
    (∀ (l : Logger) (d : Nat),
        maxHeld (Logger.effectiveImmediateFlushTrace l d)
          = walkLen (fun st => st.immediateFlushOverridden) l) := by
  refine ⟨?_, ?_, ?_, ?_⟩
  · intro st p d hov
    exact upwardReadTrace_node _ _ _ _ hov
  · intro l d
    exact maxHeld_upwardReadTrace _ l d
  · intro l d
    exact maxHeld_upwardReadTrace _ l d
  · intro l d
    exact maxHeld_upwardReadTrace _ l d

/-- Witness for C8's amended statement: on the concrete two-node chain
the trace brackets the parent's read inside the child's lock scope and
the held-lock maximum equals the walk length 2. -/
theorem C8_lock_while_recursing_witness :
    Logger.effectiveLevelTrace
        (Logger.node { name := "x.y" } (Logger.root { name := "x" })) 5
      = LockEvent.acq 5
          :: (Logger.effectiveLevelTrace (Logger.root { name := "x" }) 6
              ++ [LockEvent.rel 5]) ∧
    maxHeld (Logger.effectiveSinksTrace
        (Logger.node { name := "x.y" } (Logger.root { name := "x" })) 0)
      = walkLen (fun st => st.sinksOverridden)
          (Logger.node { name := "x.y" } (Logger.root { name := "x" })) := by
  exact ⟨C8_lock_while_recursing.1 { name := "x.y" } (Logger.root { name := "x" }) 5 rfl,
    C8_lock_while_recursing.2.2.1 (Logger.node { name := "x.y" } (Logger.root { name := "x" })) 0⟩

/-! ## Logger registry (`logger_registry.cpp`)

Names are character lists (`std::string`); the C++ loop walks dot
positions with `find`/`substr`.  A `std::make_shared<Logger>` allocation
is modelled by a fresh id drawn from `nextId`: two lookups return the
same Logger instance iff they return the same id. -/

/-- One cached logger of the registry: allocation id, name, and the
current parent link (the target of the last `set_parent`). -/
structure RegEntry where
  rid : Nat
  rname : List Char
  rparent : Option Nat
deriving DecidableEq, Repr

/-- `LoggerRegistry` state: the name-keyed cache `loggers_` plus the
allocation counter standing for object identity. -/
structure LoggerRegistry where
  nextId : Nat
  loggers : List RegEntry
deriving DecidableEq, Repr

/-- A freshly constructed registry (also the state after `clear()`). -/
def emptyRegistry : LoggerRegistry :=
  { nextId := 0, loggers := [] }

/-- Lookup in the name-keyed map `loggers_`. -/
def findByName (rs : List RegEntry) (n : List Char) : Option RegEntry :=
  rs.find? (fun e => e.rname == n)

/-- `get_or_create_locked_`, `logger_registry.cpp` lines 46–55: return
the cached instance if present, else allocate a fresh `Logger` (parent
unset) and insert it under its name. -/
def getOrCreate (reg : LoggerRegistry) (n : List Char) : LoggerRegistry × Nat :=
  match findByName reg.loggers n with
  | some e => (reg, e.rid)
  | none =>
      ({ nextId := reg.nextId + 1,
         loggers := reg.loggers ++ [{ rid := reg.nextId, rname := n, rparent := none }] },
        reg.nextId)

/-- `current->set_parent(prev)` as invoked by the registry loop (line
28): overwrite the parent link of the instance with id `cid`. -/
def setParentById (reg : LoggerRegistry) (cid : Nat) (pid : Nat) : LoggerRegistry :=
  { reg with
    loggers := reg.loggers.map
      (fun e => if e.rid == cid then { e with rparent := some pid } else e) }

/-- The `name.find('.', start)` / `substr` step: the characters before
the first dot, and — when a dot exists — the remainder after it. -/
def splitFirstDot : List Char → List Char × Option (List Char)
  | [] => ([], none)
  | c :: cs =>
      if c = '.' then ([], some cs)
      else
        let r := splitFirstDot cs
        (c :: r.1, r.2)

lemma splitFirstDot_rest_length :
    ∀ (s t : List Char), (splitFirstDot s).2 = some t → t.length < s.length
  | [], t, h => by simp [splitFirstDot] at h
  | c :: cs, t, h => by
      by_cases hc : c = '.'
      · simp [splitFirstDot, hc] at h
        subst h
        simp
      · simp only [splitFirstDot, if_neg hc] at h
        have := splitFirstDot_rest_length cs t h
        simp
        omega

/-- One iteration body of the `get_logger` loop, lines 26–30:
`auto current = get_or_create_locked_(segment); if (prev)
current->set_parent(prev); prev = current;` — returns the updated
registry and the id of `current`. -/
def stepReg (reg : LoggerRegistry) (segment : List Char) (prev : Option Nat) :
    LoggerRegistry × Nat :=
  let c := getOrCreate reg segment
  match prev with
  | some p => (setParentById c.1 c.2 p, c.2)
  | none => (c.1, c.2)

/-- The prefix-creation loop of `get_logger`, lines 19–36: `acc` is the
already-consumed prefix including its trailing dot, `rest` the
unprocessed remainder.  Each iteration looks up or creates the full
prefix `acc ++ seg` (the C++ `name.substr(0, end)`), wires it to `prev`
when `prev` is non-null, and advances past the dot; like the C++
`start < name.size()` loop condition, a dot that is the last character
ends the loop, returning the logger of the previous segment. -/
def getLoggerLoop (reg : LoggerRegistry) (acc rest : List Char) (prev : Option Nat) :
    LoggerRegistry × Option Nat :=
  let s := splitFirstDot rest
  let c := stepReg reg (acc ++ s.1) prev
  match h : s.2 with
  | none => (c.1, some c.2)
  | some [] => (c.1, some c.2)
  | some (t :: ts) => getLoggerLoop c.1 (acc ++ s.1 ++ ['.']) (t :: ts) (some c.2)
termination_by rest.length
decreasing_by
  exact splitFirstDot_rest_length rest (t :: ts) h

lemma getLoggerLoop_last (rest : List Char)
    (hs : (splitFirstDot rest).2 = none ∨ (splitFirstDot rest).2 = some [])
    (reg : LoggerRegistry) (acc : List Char) (prev : Option Nat) :
    getLoggerLoop reg acc rest prev
      = ((stepReg reg (acc ++ (splitFirstDot rest).1) prev).1,
          some (stepReg reg (acc ++ (splitFirstDot rest).1) prev).2) := by
  unfold getLoggerLoop
  simp only []
  split
  · rfl
  · rfl
  · rename_i t ts h
    rcases hs with hs | hs <;> rw [hs] at h <;> cases h

lemma getLoggerLoop_more (rest : List Char) {ts : List Char}
    (hs : (splitFirstDot rest).2 = some ts) (hne : ts ≠ [])
    (reg : LoggerRegistry) (acc : List Char) (prev : Option Nat) :
    getLoggerLoop reg acc rest prev
      = getLoggerLoop (stepReg reg (acc ++ (splitFirstDot rest).1) prev).1
          (acc ++ (splitFirstDot rest).1 ++ ['.']) ts
          (some (stepReg reg (acc ++ (splitFirstDot rest).1) prev).2) := by
  conv_lhs => unfold getLoggerLoop
  simp only []
  split
  · rename_i h
    rw [hs] at h
    cases h
  · rename_i h
    rw [hs] at h
    cases h
    exact absurd rfl hne
  · rename_i t2 ts2 h
    rw [hs] at h
    cases h
    rfl

/-- `LoggerRegistry::get_logger`, lines 10–39: an empty name yields a
null handle with the registry untouched (early return before the map is
consulted); otherwise the prefix loop runs over the dotted name. -/
def getLogger (reg : LoggerRegistry) (name : List Char) : LoggerRegistry × Option Nat :=
  if name = [] then (reg, none)
  else getLoggerLoop reg [] name none

/-- Lookup of an instance id by name. -/
def lookupId (reg : LoggerRegistry) (n : List Char) : Option Nat :=
  (findByName reg.loggers n).map (fun e => e.rid)

lemma findByName_some_name {rs : List RegEntry} {n : List Char} {e : RegEntry}
    (h : findByName rs n = some e) : e.rname = n := by
  have := List.find?_some h
  simpa using this

lemma findByName_some_mem {rs : List RegEntry} {n : List Char} {e : RegEntry}
    (h : findByName rs n = some e) : e ∈ rs :=
  List.mem_of_find?_eq_some h

lemma findByName_none {rs : List RegEntry} {n : List Char}
    (h : findByName rs n = none) : ∀ e ∈ rs, e.rname ≠ n := by
  intro e he
  have := List.find?_eq_none.mp h e he
  simpa using this

lemma getOrCreate_found {reg : LoggerRegistry} {n : List Char} {e : RegEntry}
    (h : findByName reg.loggers n = some e) :
    getOrCreate reg n = (reg, e.rid) := by
  unfold getOrCreate
  rw [h]

lemma getOrCreate_new {reg : LoggerRegistry} {n : List Char}
    (h : findByName reg.loggers n = none) :
    getOrCreate reg n
      = ({ nextId := reg.nextId + 1,
           loggers := reg.loggers ++ [{ rid := reg.nextId, rname := n, rparent := none }] },
          reg.nextId) := by
  unfold getOrCreate
  rw [h]

lemma findByName_append_single (rs : List RegEntry) (x : RegEntry) (n : List Char) :
    findByName (rs ++ [x]) n
      = (findByName rs n).or (if x.rname = n then some x else none) := by
  by_cases hx : x.rname = n <;>
    simp [findByName, List.find?_append, List.find?_cons, hx]

lemma findByName_getOrCreate_preserve {reg : LoggerRegistry} {m : List Char} {e : RegEntry}
    (n : List Char) (h : findByName reg.loggers m = some e) :
    findByName (getOrCreate reg n).1.loggers m = some e := by
  cases hf : findByName reg.loggers n with
  | some e2 =>
      rw [getOrCreate_found hf]
      exact h
  | none =>
      rw [getOrCreate_new hf]
      show findByName (reg.loggers ++ [_]) m = some e
      rw [findByName_append_single, h]
      rfl

lemma findByName_getOrCreate_self (reg : LoggerRegistry) (n : List Char) :
    ∃ e, findByName (getOrCreate reg n).1.loggers n = some e ∧
      e.rid = (getOrCreate reg n).2 ∧ e.rname = n := by
  cases hf : findByName reg.loggers n with
  | some e =>
      rw [getOrCreate_found hf]
      exact ⟨e, hf, rfl, findByName_some_name hf⟩
  | none =>
      rw [getOrCreate_new hf]
      refine ⟨{ rid := reg.nextId, rname := n, rparent := none }, ?_, rfl, rfl⟩
      show findByName (reg.loggers ++ [_]) n = _
      rw [findByName_append_single, hf]
      simp

lemma findByName_setParentById (reg : LoggerRegistry) (cid pid : Nat) (n : List Char) :
    findByName (setParentById reg cid pid).loggers n
      = (findByName reg.loggers n).map
          (fun e => if e.rid == cid then { e with rparent := some pid } else e) := by
  unfold setParentById findByName
  rw [List.find?_map]
  have hpf : ((fun e : RegEntry => e.rname == n) ∘
      (fun e : RegEntry => if e.rid == cid then { e with rparent := some pid } else e))
      = (fun e : RegEntry => e.rname == n) := by
    funext e
    by_cases he : e.rid = cid <;> simp [he, beq_iff_eq]
  rw [hpf]

lemma findByName_setParentById_self {reg : LoggerRegistry} {n : List Char} {e : RegEntry}
    (pid : Nat) (h : findByName reg.loggers n = some e) :
    findByName (setParentById reg e.rid pid).loggers n
      = some { e with rparent := some pid } := by
  rw [findByName_setParentById, h]
  simp [Option.map]

lemma findByName_setParentById_other {reg : LoggerRegistry} {n : List Char} {e : RegEntry}
    {cid : Nat} (pid : Nat) (h : findByName reg.loggers n = some e)
    (hne : e.rid ≠ cid) :
    findByName (setParentById reg cid pid).loggers n = some e := by
  rw [findByName_setParentById, h]
  simp [Option.map, beq_eq_false_iff_ne.mpr hne]

/-- Registry well-formedness: ids are below the allocation counter and
identify entries uniquely, names identify entries uniquely, and a
dot-free (top-level) name never has a parent — top-level loggers are
only ever the first segment of the loop, which is wired to no `prev`. -/
def RegWF (reg : LoggerRegistry) : Prop :=
  (∀ e ∈ reg.loggers, e.rid < reg.nextId) ∧
  (∀ e1 ∈ reg.loggers, ∀ e2 ∈ reg.loggers, e1.rid = e2.rid → e1 = e2) ∧
  (∀ e1 ∈ reg.loggers, ∀ e2 ∈ reg.loggers, e1.rname = e2.rname → e1 = e2) ∧
  (∀ e ∈ reg.loggers, '.' ∉ e.rname → e.rparent = none)

instance (reg : LoggerRegistry) : Decidable (RegWF reg) := by
  unfold RegWF
  infer_instance

lemma rid_ne_of_names_ne {reg : LoggerRegistry} {m n : List Char} {e1 e2 : RegEntry}
    (hwf : RegWF reg) (h1 : findByName reg.loggers m = some e1)
    (h2 : findByName reg.loggers n = some e2) (hmn : m ≠ n) : e1.rid ≠ e2.rid := by
  intro hrid
  have he := hwf.2.1 e1 (findByName_some_mem h1) e2 (findByName_some_mem h2) hrid
  apply hmn
  rw [← findByName_some_name h1, ← findByName_some_name h2, he]

lemma RegWF_getOrCreate {reg : LoggerRegistry} (n : List Char) (hwf : RegWF reg) :
    RegWF (getOrCreate reg n).1 := by
  obtain ⟨h1, h2, h3, h4⟩ := hwf
  cases hf : findByName reg.loggers n with
  | some e =>
      rw [getOrCreate_found hf]
      exact ⟨h1, h2, h3, h4⟩
  | none =>
      rw [getOrCreate_new hf]
      have hnew := findByName_none hf
      refine ⟨?_, ?_, ?_, ?_⟩ <;>
        simp only [List.mem_append, List.mem_singleton]
      · rintro e (he | rfl)
        · exact Nat.lt_succ_of_lt (h1 e he)
        · exact Nat.lt_succ_self _
      · rintro e1 (he1 | rfl) e2 (he2 | rfl) heq
        · exact h2 e1 he1 e2 he2 heq
        · exact absurd heq (Nat.ne_of_lt (h1 e1 he1))
        · exact absurd heq.symm (Nat.ne_of_lt (h1 e2 he2))
        · rfl
      · rintro e1 (he1 | rfl) e2 (he2 | rfl) heq
        · exact h3 e1 he1 e2 he2 heq
        · exact absurd heq (hnew e1 he1)
        · exact absurd heq.symm (hnew e2 he2)
        · rfl
      · rintro e (he | rfl) hdot
        · exact h4 e he hdot
        · rfl

lemma RegWF_setParentById {reg : LoggerRegistry} {cid : Nat} (pid : Nat)
    (hwf : RegWF reg)
    (hdot : ∃ ed ∈ reg.loggers, ed.rid = cid ∧ '.' ∈ ed.rname) :
    RegWF (setParentById reg cid pid) := by
  obtain ⟨h1, h2, h3, h4⟩ := hwf
  obtain ⟨ed, hed, hedid, heddot⟩ := hdot
  have hrid : ∀ a : RegEntry,
      ((if a.rid == cid then { a with rparent := some pid } else a) : RegEntry).rid
        = a.rid := by
    intro a
    by_cases ha : a.rid = cid <;> simp [ha, beq_iff_eq]
  have hrname : ∀ a : RegEntry,
      ((if a.rid == cid then { a with rparent := some pid } else a) : RegEntry).rname
        = a.rname := by
    intro a
    by_cases ha : a.rid = cid <;> simp [ha, beq_iff_eq]
  unfold setParentById
  refine ⟨?_, ?_, ?_, ?_⟩ <;> simp only [List.mem_map]
  · rintro e ⟨a, ha, rfl⟩
    rw [hrid]
    exact h1 a ha
  · rintro e1 ⟨a, ha, rfl⟩ e2 ⟨b, hb, rfl⟩ heq
    rw [hrid, hrid] at heq
    rw [h2 a ha b hb heq]
  · rintro e1 ⟨a, ha, rfl⟩ e2 ⟨b, hb, rfl⟩ heq
    rw [hrname, hrname] at heq
    rw [h3 a ha b hb heq]
  · rintro e ⟨a, ha, rfl⟩ hdot2
    rw [hrname] at hdot2
    by_cases hac : a.rid = cid
    · exfalso
      have : a = ed := h2 a ha ed hed (by rw [hac, hedid])
      rw [this] at hdot2
      exact hdot2 heddot
    · rw [if_neg (by simpa [beq_iff_eq] using hac)]
      exact h4 a ha hdot2

lemma getOrCreate_self_nodot {reg : LoggerRegistry} (n : List Char)
    (hwf : RegWF reg) (hnd : '.' ∉ n) :
    ∃ e, findByName (getOrCreate reg n).1.loggers n = some e ∧
      e.rid = (getOrCreate reg n).2 ∧ e.rname = n ∧ e.rparent = none := by
  cases hf : findByName reg.loggers n with
  | some e =>
      rw [getOrCreate_found hf]
      have hname := findByName_some_name hf
      refine ⟨e, hf, rfl, hname, ?_⟩
      exact hwf.2.2.2 e (findByName_some_mem hf) (by rw [hname]; exact hnd)
  | none =>
      rw [getOrCreate_new hf]
      refine ⟨{ rid := reg.nextId, rname := n, rparent := none }, ?_, rfl, rfl, rfl⟩
      show findByName (reg.loggers ++ [_]) n = _
      rw [findByName_append_single, hf]
      simp

lemma lookupId_getOrCreate_self (reg : LoggerRegistry) (n : List Char) :
    lookupId (getOrCreate reg n).1 n = some (getOrCreate reg n).2 := by
  obtain ⟨e, he, hrid, _⟩ := findByName_getOrCreate_self reg n
  unfold lookupId
  rw [he, ← hrid]
  rfl

lemma lookupId_getOrCreate_preserve {reg : LoggerRegistry} {m : List Char} {j : Nat}
    (n : List Char) (h : lookupId reg m = some j) :
    lookupId (getOrCreate reg n).1 m = some j := by
  unfold lookupId at h ⊢
  cases hf : findByName reg.loggers m with
  | none => rw [hf] at h; cases h
  | some e =>
      rw [hf] at h
      rw [findByName_getOrCreate_preserve n hf]
      exact h

lemma lookupId_setParentById (reg : LoggerRegistry) (cid pid : Nat) (n : List Char) :
    lookupId (setParentById reg cid pid) n = lookupId reg n := by
  unfold lookupId
  rw [findByName_setParentById]
  cases hf : findByName reg.loggers n with
  | none => rfl
  | some e =>
      by_cases he : e.rid = cid <;> simp [he, beq_iff_eq]

lemma lookupId_stepReg_self (reg : LoggerRegistry) (segment : List Char)
    (prev : Option Nat) :
    lookupId (stepReg reg segment prev).1 segment = some (stepReg reg segment prev).2 := by
  unfold stepReg
  cases prev with
  | none => exact lookupId_getOrCreate_self reg segment
  | some p =>
      simp only []
      rw [lookupId_setParentById]
      exact lookupId_getOrCreate_self reg segment

lemma lookupId_stepReg_preserve {reg : LoggerRegistry} {m : List Char} {j : Nat}
    (segment : List Char) (prev : Option Nat) (h : lookupId reg m = some j) :
    lookupId (stepReg reg segment prev).1 m = some j := by
  unfold stepReg
  cases prev with
  | none => exact lookupId_getOrCreate_preserve segment h
  | some p =>
      simp only []
      rw [lookupId_setParentById]
      exact lookupId_getOrCreate_preserve segment h

lemma RegWF_stepReg {reg : LoggerRegistry} (segment : List Char) (prev : Option Nat)
    (hwf : RegWF reg) (hdot : prev.isSome = true → '.' ∈ segment) :
    RegWF (stepReg reg segment prev).1 := by
  unfold stepReg
  cases prev with
  | none => exact RegWF_getOrCreate segment hwf
  | some p =>
      simp only []
      apply RegWF_setParentById p (RegWF_getOrCreate segment hwf)
      obtain ⟨e, he, hrid, hname⟩ := findByName_getOrCreate_self reg segment
      exact ⟨e, findByName_some_mem he, hrid, hname ▸ hdot rfl⟩

/-- The last segment the loop of `get_logger` looks up: the full name,
or — when the name ends in a dot — the prefix before that final dot. -/
def finalSeg (acc rest : List Char) : List Char :=
  let s := splitFirstDot rest
  match h : s.2 with
  | none => acc ++ s.1
  | some [] => acc ++ s.1
  | some (t :: ts) => finalSeg (acc ++ s.1 ++ ['.']) (t :: ts)
termination_by rest.length
decreasing_by
  exact splitFirstDot_rest_length rest (t :: ts) h

lemma finalSeg_last (rest : List Char)
    (hs : (splitFirstDot rest).2 = none ∨ (splitFirstDot rest).2 = some [])
    (acc : List Char) :
    finalSeg acc rest = acc ++ (splitFirstDot rest).1 := by
  unfold finalSeg
  simp only []
  split
  · rfl
  · rfl
  · rename_i t ts h
    rcases hs with hs | hs <;> rw [hs] at h <;> cases h

lemma finalSeg_more (rest : List Char) {ts : List Char}
    (hs : (splitFirstDot rest).2 = some ts) (hne : ts ≠ []) (acc : List Char) :
    finalSeg acc rest = finalSeg (acc ++ (splitFirstDot rest).1 ++ ['.']) ts := by
  conv_lhs => unfold finalSeg
  simp only []
  split
  · rename_i h
    rw [hs] at h
    cases h
  · rename_i h
    rw [hs] at h
    cases h
    exact absurd rfl hne
  · rename_i t2 ts2 h
    rw [hs] at h
    cases h
    rfl

/-- Core loop facts: the loop always returns a logger, that logger is
the registry's instance for the last visited segment, and every
existing name-to-instance binding survives the loop unchanged. -/
lemma getLoggerLoop_spec (rest : List Char) :
    ∀ (acc : List Char) (reg : LoggerRegistry) (prev : Option Nat),
      ((getLoggerLoop reg acc rest prev).2.isSome = true) ∧
      (∀ i, (getLoggerLoop reg acc rest prev).2 = some i →
          lookupId (getLoggerLoop reg acc rest prev).1 (finalSeg acc rest) = some i) ∧
      (∀ m j, lookupId reg m = some j →
          lookupId (getLoggerLoop reg acc rest prev).1 m = some j) := by
  cases hs : (splitFirstDot rest).2 with
  | none =>
      intro acc reg prev
      rw [getLoggerLoop_last rest (Or.inl hs), finalSeg_last rest (Or.inl hs)]
      refine ⟨rfl, ?_, ?_⟩
      · intro i hi
        cases hi
        exact lookupId_stepReg_self reg _ prev
      · intro m j h
        exact lookupId_stepReg_preserve _ prev h
  | some t =>
      cases t with
      | nil =>
          intro acc reg prev
          rw [getLoggerLoop_last rest (Or.inr hs), finalSeg_last rest (Or.inr hs)]
          refine ⟨rfl, ?_, ?_⟩
          · intro i hi
            cases hi
            exact lookupId_stepReg_self reg _ prev
          · intro m j h
            exact lookupId_stepReg_preserve _ prev h
      | cons th tt =>
          intro acc reg prev
          rw [getLoggerLoop_more rest hs (by simp), finalSeg_more rest hs (by simp)]
          obtain ⟨ih1, ih2, ih3⟩ := getLoggerLoop_spec (th :: tt)
            (acc ++ (splitFirstDot rest).1 ++ ['.'])
            (stepReg reg (acc ++ (splitFirstDot rest).1) prev).1
            (some (stepReg reg (acc ++ (splitFirstDot rest).1) prev).2)
          refine ⟨ih1, ih2, ?_⟩
          intro m j h
          exact ih3 m j (lookupId_stepReg_preserve _ prev h)
termination_by rest.length
decreasing_by
  exact splitFirstDot_rest_length rest (th :: tt) hs

/-- Well-formedness is preserved by the loop: the nodes it wires to a
`prev` are always dotted segments (the first segment of the walk gets
no parent), so the top-level no-parent invariant survives. -/
lemma RegWF_getLoggerLoop (rest : List Char) :
    ∀ (acc : List Char) (reg : LoggerRegistry) (prev : Option Nat),
      RegWF reg → (prev.isSome = true → '.' ∈ acc) →
      RegWF (getLoggerLoop reg acc rest prev).1 := by
  cases hs : (splitFirstDot rest).2 with
  | none =>
      intro acc reg prev hwf hprev
      rw [getLoggerLoop_last rest (Or.inl hs)]
      exact RegWF_stepReg _ prev hwf
        (fun hp => List.mem_append.mpr (Or.inl (hprev hp)))
  | some t =>
      cases t with
      | nil =>
          intro acc reg prev hwf hprev
          rw [getLoggerLoop_last rest (Or.inr hs)]
          exact RegWF_stepReg _ prev hwf
            (fun hp => List.mem_append.mpr (Or.inl (hprev hp)))
      | cons th tt =>
          intro acc reg prev hwf hprev
          rw [getLoggerLoop_more rest hs (by simp)]
          apply RegWF_getLoggerLoop (th :: tt)
          · exact RegWF_stepReg _ prev hwf
              (fun hp => List.mem_append.mpr (Or.inl (hprev hp)))
          · intro _
            simp
termination_by rest.length
decreasing_by
  exact splitFirstDot_rest_length rest (th :: tt) hs

/-- Running `get_logger("a.b.c")` on any well-formed registry — whatever
was requested before — leaves "a", "a.b" and "a.b.c" all cached, returns
the instance of "a.b.c", and wires "a.b.c" → "a.b" → "a" → null. -/
lemma getLogger_abc_chain (reg : LoggerRegistry) (hwf : RegWF reg) :
    ∃ ea eab eabc : RegEntry,
      findByName (getLogger reg ['a', '.', 'b', '.', 'c']).1.loggers ['a'] = some ea ∧
      findByName (getLogger reg ['a', '.', 'b', '.', 'c']).1.loggers ['a', '.', 'b']
        = some eab ∧
      findByName (getLogger reg ['a', '.', 'b', '.', 'c']).1.loggers
        ['a', '.', 'b', '.', 'c'] = some eabc ∧
      ea.rparent = none ∧
      eab.rparent = some ea.rid ∧
      eabc.rparent = some eab.rid ∧
      (getLogger reg ['a', '.', 'b', '.', 'c']).2 = some eabc.rid := by
  have h0 : getLogger reg ['a', '.', 'b', '.', 'c']
      = getLoggerLoop reg [] ['a', '.', 'b', '.', 'c'] none := by
    unfold getLogger
    rw [if_neg (by decide)]
  have e1 : getLoggerLoop reg [] ['a', '.', 'b', '.', 'c'] none
      = getLoggerLoop (stepReg reg ['a'] none).1 ['a', '.'] ['b', '.', 'c']
          (some (stepReg reg ['a'] none).2) :=
    getLoggerLoop_more ['a', '.', 'b', '.', 'c'] rfl (by decide) reg [] none
  have e2 : ∀ (r : LoggerRegistry) (p : Nat),
      getLoggerLoop r ['a', '.'] ['b', '.', 'c'] (some p)
        = getLoggerLoop (stepReg r ['a', '.', 'b'] (some p)).1 ['a', '.', 'b', '.'] ['c']
            (some (stepReg r ['a', '.', 'b'] (some p)).2) := by
    intro r p
    exact getLoggerLoop_more ['b', '.', 'c'] rfl (by decide) r ['a', '.'] (some p)
  have e3 : ∀ (r : LoggerRegistry) (p : Nat),
      getLoggerLoop r ['a', '.', 'b', '.'] ['c'] (some p)
        = ((stepReg r ['a', '.', 'b', '.', 'c'] (some p)).1,
            some (stepReg r ['a', '.', 'b', '.', 'c'] (some p)).2) := by
    intro r p
    exact getLoggerLoop_last ['c'] (Or.inl rfl) r ['a', '.', 'b', '.'] (some p)
  -- first iteration: segment "a", no parent wiring
  have hstep1 : stepReg reg ['a'] none = ((getOrCreate reg ['a']).1, (getOrCreate reg ['a']).2) :=
    rfl
  obtain ⟨ea, hea1, heaid, heaname, heapar⟩ := getOrCreate_self_nodot ['a'] hwf (by decide)
  have hwf1 : RegWF (getOrCreate reg ['a']).1 := RegWF_getOrCreate _ hwf
  -- second iteration: segment "a.b", wired to "a"
  have hstep2 : ∀ (r : LoggerRegistry) (p : Nat),
      stepReg r ['a', '.', 'b'] (some p)
        = (setParentById (getOrCreate r ['a', '.', 'b']).1 (getOrCreate r ['a', '.', 'b']).2 p,
            (getOrCreate r ['a', '.', 'b']).2) := fun _ _ => rfl
  have hstep3 : ∀ (r : LoggerRegistry) (p : Nat),
      stepReg r ['a', '.', 'b', '.', 'c'] (some p)
        = (setParentById (getOrCreate r ['a', '.', 'b', '.', 'c']).1
              (getOrCreate r ['a', '.', 'b', '.', 'c']).2 p,
            (getOrCreate r ['a', '.', 'b', '.', 'c']).2) := fun _ _ => rfl
  obtain ⟨eab0, heab2, heabid, heabname⟩ :=
    findByName_getOrCreate_self (getOrCreate reg ['a']).1 ['a', '.', 'b']
  have hwf2 : RegWF (getOrCreate (getOrCreate reg ['a']).1 ['a', '.', 'b']).1 :=
    RegWF_getOrCreate _ hwf1
  have hea2 : findByName (getOrCreate (getOrCreate reg ['a']).1 ['a', '.', 'b']).1.loggers ['a']
      = some ea := findByName_getOrCreate_preserve _ hea1
  have hne_a_ab : ea.rid ≠ eab0.rid :=
    rid_ne_of_names_ne hwf2 hea2 heab2 (by decide)
  -- state after set_parent("a.b" → "a")
  have hea3 : findByName (setParentById
        (getOrCreate (getOrCreate reg ['a']).1 ['a', '.', 'b']).1
        (getOrCreate (getOrCreate reg ['a']).1 ['a', '.', 'b']).2
        (getOrCreate reg ['a']).2).loggers ['a'] = some ea := by
    apply findByName_setParentById_other _ hea2
    rw [← heabid]
    exact hne_a_ab
  have heab3 : findByName (setParentById
        (getOrCreate (getOrCreate reg ['a']).1 ['a', '.', 'b']).1
        (getOrCreate (getOrCreate reg ['a']).1 ['a', '.', 'b']).2
        (getOrCreate reg ['a']).2).loggers ['a', '.', 'b']
      = some { eab0 with rparent := some (getOrCreate reg ['a']).2 } := by
    rw [← heabid]
    exact findByName_setParentById_self _ heab2
  have hwf3 : RegWF (setParentById
        (getOrCreate (getOrCreate reg ['a']).1 ['a', '.', 'b']).1
        (getOrCreate (getOrCreate reg ['a']).1 ['a', '.', 'b']).2
        (getOrCreate reg ['a']).2) := by
    apply RegWF_setParentById _ hwf2
    exact ⟨eab0, findByName_some_mem heab2, heabid, by rw [heabname]; decide⟩
  -- third iteration: segment "a.b.c", wired to "a.b"
  set A3 := setParentById
      (getOrCreate (getOrCreate reg ['a']).1 ['a', '.', 'b']).1
      (getOrCreate (getOrCreate reg ['a']).1 ['a', '.', 'b']).2
      (getOrCreate reg ['a']).2 with hA3
  obtain ⟨eabc0, heabc4, heabcid, heabcname⟩ :=
    findByName_getOrCreate_self A3 ['a', '.', 'b', '.', 'c']
  have hwf4 : RegWF (getOrCreate A3 ['a', '.', 'b', '.', 'c']).1 := RegWF_getOrCreate _ hwf3
  have hea4 : findByName (getOrCreate A3 ['a', '.', 'b', '.', 'c']).1.loggers ['a']
      = some ea := findByName_getOrCreate_preserve _ hea3
  have heab4 : findByName (getOrCreate A3 ['a', '.', 'b', '.', 'c']).1.loggers ['a', '.', 'b']
      = some { eab0 with rparent := some (getOrCreate reg ['a']).2 } :=
    findByName_getOrCreate_preserve _ heab3
  have hne_a_abc : ea.rid ≠ eabc0.rid :=
    rid_ne_of_names_ne hwf4 hea4 heabc4 (by decide)
  have hne_ab_abc : eab0.rid ≠ eabc0.rid := by
    have := rid_ne_of_names_ne hwf4 heab4 heabc4 (by decide)
    simpa using this
  have hea5 : findByName (setParentById (getOrCreate A3 ['a', '.', 'b', '.', 'c']).1
        (getOrCreate A3 ['a', '.', 'b', '.', 'c']).2
        (getOrCreate (getOrCreate reg ['a']).1 ['a', '.', 'b']).2).loggers ['a']
      = some ea := by
    apply findByName_setParentById_other _ hea4
    rw [← heabcid]
    exact hne_a_abc
  have heab5 : findByName (setParentById (getOrCreate A3 ['a', '.', 'b', '.', 'c']).1
        (getOrCreate A3 ['a', '.', 'b', '.', 'c']).2
        (getOrCreate (getOrCreate reg ['a']).1 ['a', '.', 'b']).2).loggers ['a', '.', 'b']
      = some { eab0 with rparent := some (getOrCreate reg ['a']).2 } := by
    apply findByName_setParentById_other _ heab4
    rw [← heabcid]
    simpa using hne_ab_abc
  have heabc5 : findByName (setParentById (getOrCreate A3 ['a', '.', 'b', '.', 'c']).1
        (getOrCreate A3 ['a', '.', 'b', '.', 'c']).2
        (getOrCreate (getOrCreate reg ['a']).1 ['a', '.', 'b']).2).loggers
        ['a', '.', 'b', '.', 'c']
      = some { eabc0 with
          rparent := some (getOrCreate (getOrCreate reg ['a']).1 ['a', '.', 'b']).2 } := by
    rw [← heabcid]
    exact findByName_setParentById_self _ heabc4
  -- assemble
  refine ⟨ea, { eab0 with rparent := some (getOrCreate reg ['a']).2 },
    { eabc0 with
      rparent := some (getOrCreate (getOrCreate reg ['a']).1 ['a', '.', 'b']).2 },
    ?_, ?_, ?_, heapar, ?_, ?_, ?_⟩
  · rw [h0, e1, hstep1, e2, hstep2, e3, hstep3]
    exact hea5
  · rw [h0, e1, hstep1, e2, hstep2, e3, hstep3]
    exact heab5
  · rw [h0, e1, hstep1, e2, hstep2, e3, hstep3]
    exact heabc5
  · exact congrArg some heaid.symm
  · exact congrArg some heabid.symm
  · rw [h0, e1, hstep1, e2, hstep2, e3, hstep3]
    exact congrArg some heabcid.symm

/-- C7: `get_logger` is idempotent — a second call with the same
non-empty name returns the same instance — and after requesting
"a.b.c" on any well-formed registry state (hence after any prior
request order; well-formedness holds initially and is preserved by
every call) the registry holds loggers for every prefix, the returned
logger is the one cached under "a.b.c", its parent is the instance
cached under "a.b", whose parent is the instance under "a", whose
parent is null. -/
theorem C7_get_logger_idempotent_and_chain :
    (∀ (reg : LoggerRegistry) (name : List Char), name ≠ [] →
        (getLogger (getLogger reg name).1 name).2 = (getLogger reg name).2 ∧
        ((getLogger reg name).2).isSome = true) ∧
    (∀ reg : LoggerRegistry, RegWF reg →
        ∃ ea eab eabc : RegEntry,
          findByName (getLogger reg ['a', '.', 'b', '.', 'c']).1.loggers ['a'] = some ea ∧
          findByName (getLogger reg ['a', '.', 'b', '.', 'c']).1.loggers ['a', '.', 'b']
            = some eab ∧
          findByName (getLogger reg ['a', '.', 'b', '.', 'c']).1.loggers
            ['a', '.', 'b', '.', 'c'] = some eabc ∧
          ea.rparent = none ∧
          eab.rparent = some ea.rid ∧
          eabc.rparent = some eab.rid ∧
          (getLogger reg ['a', '.', 'b', '.', 'c']).2 = some eabc.rid) ∧
    (∀ (reg : LoggerRegistry) (name : List Char), RegWF reg →
        RegWF (getLogger reg name).1) ∧
    RegWF emptyRegistry := by
  refine ⟨?_, getLogger_abc_chain, ?_, by decide⟩
  · intro reg name hne
    unfold getLogger
    rw [if_neg hne, if_neg hne]
    obtain ⟨h1s, h1l, h1p⟩ := getLoggerLoop_spec name [] reg none
    obtain ⟨i1, hi1⟩ := Option.isSome_iff_exists.mp h1s
    obtain ⟨h2s, h2l, h2p⟩ :=
      getLoggerLoop_spec name [] (getLoggerLoop reg [] name none).1 none
    obtain ⟨i2, hi2⟩ := Option.isSome_iff_exists.mp h2s
    have hl1 := h1l i1 hi1
    have hl2 := h2l i2 hi2
    have hl1' := h2p _ _ hl1
    rw [hl1'] at hl2
    rw [hi1, hi2]
    cases hl2
    exact ⟨rfl, rfl⟩
  · intro reg name hwf
    unfold getLogger
    split
    · exact hwf
    · exact RegWF_getLoggerLoop name [] reg none hwf (by intro h; cases h)

/-- Witness for C7: applying the theorem at the empty registry — the
second request for "r" returns the same instance as the first, and a
fresh request for "a.b.c" yields the fully linked prefix chain. -/
theorem C7_get_logger_idempotent_and_chain_witness :
    ((getLogger (getLogger emptyRegistry ['r']).1 ['r']).2
        = (getLogger emptyRegistry ['r']).2 ∧
      ((getLogger emptyRegistry ['r']).2).isSome = true) ∧
    (∃ ea eab eabc : RegEntry,
      findByName (getLogger emptyRegistry ['a', '.', 'b', '.', 'c']).1.loggers ['a']
        = some ea ∧
      findByName (getLogger emptyRegistry ['a', '.', 'b', '.', 'c']).1.loggers
        ['a', '.', 'b'] = some eab ∧
      findByName (getLogger emptyRegistry ['a', '.', 'b', '.', 'c']).1.loggers
        ['a', '.', 'b', '.', 'c'] = some eabc ∧
      ea.rparent = none ∧
      eab.rparent = some ea.rid ∧
      eabc.rparent = some eab.rid ∧
      (getLogger emptyRegistry ['a', '.', 'b', '.', 'c']).2 = some eabc.rid) :=
  ⟨C7_get_logger_idempotent_and_chain.1 emptyRegistry ['r'] (by decide),
    C7_get_logger_idempotent_and_chain.2.1 emptyRegistry (by decide)⟩

/-- C10: `get_logger` with the empty name returns a null handle and the
registry state — in particular the name-to-instance map — is returned
untouched: the early return at lines 11–13 precedes any map access. -/
theorem C10_empty_name_null_handle (reg : LoggerRegistry) :
    getLogger reg [] = (reg, none) := by
  rfl

/-! ## Async pipeline interleaving (claim C3)

`AsyncSink`, `async_sink.cpp`.  The producer threads and the single
worker thread interleave; each transition below is one lock-protected
or atomic region of the code, taken from `write` (lines 62–73),
`flush` (lines 75–87) and `worker_loop_` (lines 89–141).  The wrapped
destination is modelled as non-failing (failure accounting is settled
by C6); `events` records the order of `wrapped_->write` and
`wrapped_->flush` calls. -/

/-- Worker control point inside `worker_loop_`. -/
inductive WorkerPC : Type where
  | Waiting : WorkerPC
  | Draining : WorkerPC
  | FlushCheck : WorkerPC
  | Stopped : WorkerPC
deriving DecidableEq, Repr

/-- A call on the wrapped destination. -/
inductive WEvent : Type where
  | deliver (r : LogRecord) : WEvent
  | flushWrapped : WEvent
deriving DecidableEq, Repr

/-- Shared state of one `AsyncSink`: the queue, the two flush
generation counters, the worker's local `last_seen_flush_gen` and
control point, the wrapped-destination call sequence, the drop counter,
and the configured `max_batch`. -/
structure AsyncState where
  q : MutexRingBufferQueue
  flushRequestGen : Nat
  flushDoneGen : Nat
  lastSeenFlushGen : Nat
  wpc : WorkerPC
  events : List WEvent
  droppedRecords : Nat
  maxBatch : Nat
deriving DecidableEq, Repr

/-- Pipeline state right after the `AsyncSink` constructor (lines
24–38): fresh queue, both generations 0, worker parked in
`wait_for_work`. -/
def initAsyncState (capacity : Nat) (policy : OverflowPolicy) (maxBatch : Nat) : AsyncState :=
  { q := MutexRingBufferQueue.mkQueue capacity policy
    flushRequestGen := 0
    flushDoneGen := 0
    lastSeenFlushGen := 0
    wpc := WorkerPC.Waiting
    events := []
    droppedRecords := 0
    maxBatch := if maxBatch = 0 then 1 else maxBatch }

/-- One atomic region of producer or worker code. -/
inductive AsyncStep : Type where
  | producerWrite (r : LogRecord) : AsyncStep
  | producerFlushBegin : AsyncStep
  | workerWake : AsyncStep
  | workerDrainBatch : AsyncStep
  | workerFlushCheck : AsyncStep
deriving DecidableEq, Repr

/-- The interleaving semantics.  Each step is one code region:

* `producerWrite r` — `AsyncSink::write` (lines 62–73): enqueue under
  the queue mutex, count drops (a producer blocked by the `Block`
  policy changes nothing yet);
* `producerFlushBegin` — the first half of `AsyncSink::flush` (lines
  76–83): `fetch_add` on `flush_request_gen_` and `kick_for_flush`; the
  caller then waits until `flush_done_gen_` reaches its target;
* `workerWake` — `wait_for_work` returning plus the stop check (lines
  104–110): consumes the flush kick, exits if stopping on an empty
  queue, else enters the drain loop;
* `workerDrainBatch` — one test of `while (dequeue_batch(...) > 0)`
  (lines 113–122): a non-empty queue yields a batch of at most
  `max_batch` records each delivered to the wrapped sink; an empty
  queue exits the loop towards the flush check;
* `workerFlushCheck` — lines 124–140: load `flush_request_gen_` once;
  if it moved, flush the wrapped sink, publish `flush_done_gen_` and
  notify the waiting flushers; then back to waiting.

A step whose guard does not hold (wrong control point, blocked wait)
leaves the state unchanged. -/
def asyncStep (s : AsyncState) (st : AsyncStep) : AsyncState :=
  match st with
  | AsyncStep.producerWrite r =>
      match AsyncSink.writeOp s.q s.droppedRecords r with
      | none => s
      | some (q2, d2) => { s with q := q2, droppedRecords := d2 }
  | AsyncStep.producerFlushBegin =>
      { s with flushRequestGen := s.flushRequestGen + 1,
               q := MutexRingBufferQueue.kickForFlush s.q }
  | AsyncStep.workerWake =>
      if s.wpc = WorkerPC.Waiting then
        if s.q.stopRequested || decide (0 < s.q.count) || s.q.flushKick then
          if s.q.stopRequested ∧ s.q.count = 0 then
            { s with q := { s.q with flushKick := false }, wpc := WorkerPC.Stopped }
          else
            { s with q := { s.q with flushKick := false }, wpc := WorkerPC.Draining }
        else s
      else s
  | AsyncStep.workerDrainBatch =>
      if s.wpc = WorkerPC.Draining then
        if 0 < s.q.count then
          { s with
            q := (MutexRingBufferQueue.dequeueBatch s.q s.maxBatch).1
            events := s.events
              ++ (MutexRingBufferQueue.dequeueBatch s.q s.maxBatch).2.map WEvent.deliver }
        else
          { s with wpc := WorkerPC.FlushCheck }
      else s
  | AsyncStep.workerFlushCheck =>
      if s.wpc = WorkerPC.FlushCheck then
        if s.flushRequestGen ≠ s.lastSeenFlushGen then
          { s with
            events := s.events ++ [WEvent.flushWrapped]
            lastSeenFlushGen := s.flushRequestGen
            flushDoneGen := s.flushRequestGen
            wpc := WorkerPC.Waiting }
        else
          { s with wpc := WorkerPC.Waiting }
      else s

/-- Run a schedule of interleaved steps from a state. -/
def runAsync (s : AsyncState) (sched : List AsyncStep) : AsyncState :=
  sched.foldl asyncStep s

/-- The racing schedule refuting the flush barrier: the worker finishes
its drain loop on an empty queue (second `workerDrainBatch`), THEN the
producer enqueues `r1` and calls `flush()` (target generation 1), and
only then does the worker reach the flush check — which flushes the
wrapped sink and publishes generation 1 without ever re-draining.
Every step is enabled when taken, so this is a real interleaving of the
C++ threads. -/
def c3RaceFinal : AsyncState :=
  runAsync (initAsyncState 8 OverflowPolicy.Block 4)
    [AsyncStep.producerWrite { level := Level.Info, loggerName := "p", message := "r0" },
     AsyncStep.workerWake,
     AsyncStep.workerDrainBatch,
     AsyncStep.workerDrainBatch,
     AsyncStep.producerWrite { level := Level.Info, loggerName := "p", message := "r1" },
     AsyncStep.producerFlushBegin,
     AsyncStep.workerFlushCheck]

/-- C3 (code bug): the flush barrier is violated by a real interleaving.
In `c3RaceFinal`, record `r1` was successfully enqueued (no drop)
strictly before `flush()` incremented the request generation to 1; the
final state has `flush_done_gen = 1`, so that `flush()` call's wait
`flush_done_gen ≥ 1` is satisfied and it returns — yet the wrapped
destination has never received `r1` (the only calls were the delivery
of `r0` and one flush) and `r1` is still sitting in the queue.  The
worker checks the flush generation only AFTER leaving its drain loop
(`worker_loop_` line 125) and does not re-drain before flushing and
publishing, despite the comment "Ensure queue is drained before
flushing wrapped sink"; the spec's ordering guarantee is the clear
intent, and the code loses it in this window. -/
theorem C3_flush_barrier_race_on_code :
    c3RaceFinal.flushDoneGen = 1 ∧
    c3RaceFinal.droppedRecords = 0 ∧
    c3RaceFinal.events
      = [WEvent.deliver { level := Level.Info, loggerName := "p", message := "r0" },
         WEvent.flushWrapped] ∧
    (WEvent.deliver { level := Level.Info, loggerName := "p", message := "r1" })
      ∉ c3RaceFinal.events ∧
    c3RaceFinal.q.count = 1 := by
  decide

end SimLogger
